import Mathlib

/-!
DiamondRayTracer: host-side accumulation loop and spectral model.

A shallow embedding of `src/main.cpp` and `include/spectral.h`.

* C `float` is modelled by `F32`: a finite value is the rational number it
  denotes, next to `+inf`, `-inf` and `NaN`.  Every arithmetic operation is
  the exact rational operation followed by round-to-nearest-even onto the
  binary32 grid (24 significant bits, subnormals down to `2^-149`, overflow
  to infinity at `2^128`).  The two zeros are identified; expressions are
  evaluated operation by operation in binary32 (no fused multiply-add, no
  excess precision).
* `uint32_t` is a natural number reduced modulo `2^32` where it is incremented.
* The globals of `main.cpp` are collected in the record `Globals`.
-/

namespace DiamondRayTracer

/-! ## binary32 arithmetic -/

/-- A binary32 value: a finite number (as the rational it denotes), an infinity or NaN. -/
inductive F32 where
  | fin (q : ℚ)
  | pinf
  | ninf
  | nan
deriving DecidableEq

/-- Floor of the binary logarithm of a positive natural, by halving (`fuel` bounds the steps). -/
def log2Fuel : ℕ → ℕ → ℕ
  | 0, _ => 0
  | fuel + 1, n => if 2 ≤ n then log2Fuel fuel (n / 2) + 1 else 0

/-- Floor of the binary logarithm of a positive natural number. -/
def natLog2 (n : ℕ) : ℕ := log2Fuel n n

/-- Floor of the binary logarithm of `|q|` for a nonzero rational `q`. -/
def ilog2 (q : ℚ) : ℤ :=
  let k0 : ℤ := (natLog2 q.num.natAbs : ℤ) - (natLog2 q.den : ℤ)
  if (2 : ℚ) ^ k0 ≤ |q| then k0 else k0 - 1

/-- Nearest integer to a rational, ties to the even neighbour. -/
def roundEven (q : ℚ) : ℤ :=
  let f := ⌊q⌋
  let r := q - f
  if r < 1 / 2 then f else if 1 / 2 < r then f + 1 else if f % 2 = 0 then f else f + 1

/-- Exponent of the unit in the last place of the binary32 binade holding `q`. -/
def ulpExp (q : ℚ) : ℤ := max (ilog2 q - 23) (-149)

/-- Overflow check shared by all rounded operations. -/
def F32.ofGrid (r : ℚ) : F32 :=
  if (2 : ℚ) ^ (128 : ℕ) ≤ r then F32.pinf
  else if r ≤ -(2 : ℚ) ^ (128 : ℕ) then F32.ninf
  else F32.fin r

/-- The multiple of the unit in the last place nearest to `q`, ties to even. -/
def roundGrid (q : ℚ) : ℚ :=
  (roundEven (q / (2 : ℚ) ^ ulpExp q) : ℚ) * (2 : ℚ) ^ ulpExp q

/-- Round a rational to binary32, round-to-nearest-even. -/
def F32.round (q : ℚ) : F32 := F32.ofGrid (roundGrid q)

/-- The rational `a` lies on the binary32 grid: `a = m * 2^e` with `|m| ≤ 2^24` and
`e ≥ -149`, of magnitude below `2^128`. -/
def OnGrid (a : ℚ) : Prop :=
  (∃ m e : ℤ, |m| ≤ 2 ^ (24 : ℕ) ∧ -149 ≤ e ∧ a = (m : ℚ) * (2 : ℚ) ^ e) ∧
    |a| < (2 : ℚ) ^ (128 : ℕ)

/-- The value `x` is finite and lies in the interval `[a, b]`. -/
def F32.InRange (x : F32) (a b : ℚ) : Prop := ∃ r : ℚ, x = F32.fin r ∧ a ≤ r ∧ r ≤ b

/-- A decimal `float` literal such as `0.3306f`. -/
def lit (q : ℚ) : F32 := F32.round q

/-- Unary minus. -/
def fneg : F32 → F32
  | F32.fin x => F32.fin (-x)
  | F32.pinf => F32.ninf
  | F32.ninf => F32.pinf
  | F32.nan => F32.nan

/-- Binary32 addition. -/
def fadd : F32 → F32 → F32
  | F32.nan, _ => F32.nan
  | _, F32.nan => F32.nan
  | F32.fin x, F32.fin y => F32.round (x + y)
  | F32.pinf, F32.ninf => F32.nan
  | F32.ninf, F32.pinf => F32.nan
  | F32.pinf, _ => F32.pinf
  | _, F32.pinf => F32.pinf
  | F32.ninf, _ => F32.ninf
  | _, F32.ninf => F32.ninf

/-- Binary32 subtraction. -/
def fsub (a b : F32) : F32 := fadd a (fneg b)

/-- Sign of a binary32 value that is not NaN: `1`, `0` or `-1`. -/
def fsign : F32 → ℤ
  | F32.fin x => if 0 < x then 1 else if x < 0 then -1 else 0
  | F32.pinf => 1
  | F32.ninf => -1
  | F32.nan => 0

/-- The infinity of the given sign, NaN for sign `0`. -/
def infOfSign (s : ℤ) : F32 :=
  if 0 < s then F32.pinf else if s < 0 then F32.ninf else F32.nan

/-- Binary32 multiplication. -/
def fmul : F32 → F32 → F32
  | F32.nan, _ => F32.nan
  | _, F32.nan => F32.nan
  | F32.fin x, F32.fin y => F32.round (x * y)
  | a, b => infOfSign (fsign a * fsign b)

/-- Binary32 division (a zero divisor is taken to be `+0`). -/
def fdiv : F32 → F32 → F32
  | F32.nan, _ => F32.nan
  | _, F32.nan => F32.nan
  | F32.fin x, F32.fin y => if y = 0 then infOfSign (fsign (F32.fin x)) else F32.round (x / y)
  | F32.fin _, _ => F32.fin 0
  | a, F32.fin y => infOfSign (fsign a * (if y < 0 then -1 else 1))
  | _, _ => F32.nan

/-- The comparison `a < b` of C: false as soon as one side is NaN. -/
def flt : F32 → F32 → Bool
  | F32.nan, _ => false
  | _, F32.nan => false
  | F32.fin x, F32.fin y => decide (x < y)
  | F32.ninf, F32.ninf => false
  | F32.ninf, _ => true
  | _, F32.ninf => false
  | F32.pinf, _ => false
  | _, F32.pinf => true

/-- The function `std::min(a, b)`: `(b < a) ? b : a`. -/
def fmin (a b : F32) : F32 := if flt b a then b else a

/-- The function `std::max(a, b)`: `(a < b) ? b : a`. -/
def fmax (a b : F32) : F32 := if flt a b then b else a

/-- The function `std::abs` on `float`. -/
def fabs : F32 → F32
  | F32.fin x => F32.fin |x|
  | F32.pinf => F32.pinf
  | F32.ninf => F32.pinf
  | F32.nan => F32.nan

/-- Integer square root by binary search on the bits of the result. -/
def isqrtFuel : ℕ → ℕ → ℕ → ℕ
  | 0, r, _ => r
  | b + 1, r, n => if (r + 2 ^ b) * (r + 2 ^ b) ≤ n then isqrtFuel b (r + 2 ^ b) n else isqrtFuel b r n

/-- Floor of the square root of a natural number. -/
def isqrt (n : ℕ) : ℕ := isqrtFuel (natLog2 n / 2 + 1) 0 n

/-- Correctly rounded square root of a positive rational on the binary32 grid. -/
def sqrtRound (q : ℚ) : F32 :=
  let e := max (ilog2 q / 2 - 23) (-149)
  let t : ℚ := q / (2 : ℚ) ^ (2 * e)
  let s : ℕ := isqrt ⌊t⌋.toNat
  let h : ℚ := ((s : ℚ) + 1 / 2) ^ (2 : ℕ)
  let m : ℕ := if t < h then s else if h < t then s + 1 else if s % 2 = 0 then s else s + 1
  F32.ofGrid ((m : ℚ) * (2 : ℚ) ^ e)

/-- The function `std::sqrt` on `float`. -/
def fsqrt : F32 → F32
  | F32.fin x => if x < 0 then F32.nan else if x = 0 then F32.fin 0 else sqrtRound x
  | F32.pinf => F32.pinf
  | F32.ninf => F32.nan
  | F32.nan => F32.nan

/-! ## `include/spectral.h` -/

/-- `getDiamondIOR_Sellmeier`, `spectral.h` lines 20-32. -/
def getDiamondIOR_Sellmeier (wavelength_nm : F32) : F32 :=
  let lambda_um := fdiv wavelength_nm (lit 1000.0)
  let l2 := fmul lambda_um lambda_um
  let B1 := lit 0.3306
  let C1 := fmul (lit 0.1750) (lit 0.1750)
  let B2 := lit 4.3356
  let C2 := fmul (lit 0.1060) (lit 0.1060)
  let n2 := fadd (fadd (lit 1.0) (fdiv (fmul B1 l2) (fsub l2 C1))) (fdiv (fmul B2 l2) (fsub l2 C2))
  fsqrt (fmax n2 (lit 1.0))

/-- `getDiamondIOR`, `spectral.h` lines 91-93. -/
def getDiamondIOR (wavelength_nm : F32) : F32 := getDiamondIOR_Sellmeier wavelength_nm

/-- `getDispersionValue`, `spectral.h` lines 107-111. -/
def getDispersionValue (red_wavelength_nm blue_wavelength_nm : F32) : F32 :=
  let ior_red := getDiamondIOR red_wavelength_nm
  let ior_blue := getDiamondIOR blue_wavelength_nm
  fsub ior_blue ior_red

/-- `getDiamondDispersion`, `spectral.h` lines 114-116. -/
def getDiamondDispersion : F32 := getDispersionValue (lit 656.3) (lit 486.1)

/-- The local `intensity` of `wavelengthToRGB`, `spectral.h` lines 80-83. -/
def intensity (wave : F32) : F32 :=
  if flt wave (lit 420.0) || flt (lit 700.0) wave then
    fadd (lit 0.3) (fmul (lit 0.7) (fsub (lit 1.0) (fdiv (fabs (fsub wave (lit 550.0))) (lit 170.0))))
  else lit 1.0

/-- The locals `(r, g, b)` of `wavelengthToRGB` before the intensity scaling,
`spectral.h` lines 39-77. -/
def segmentRGB (wave : F32) : F32 × F32 × F32 :=
  if flt wave (lit 420.0) then
    let r := fdiv (fneg (fsub wave (lit 380.0))) (fsub (lit 420.0) (lit 380.0))
    (fadd (lit 0.3) (fmul (lit 0.7) r), lit 0.0, lit 1.0)
  else if flt wave (lit 490.0) then
    (lit 0.0, fdiv (fsub wave (lit 420.0)) (fsub (lit 490.0) (lit 420.0)), lit 1.0)
  else if flt wave (lit 575.0) then
    (lit 0.0, lit 1.0,
      fsub (lit 1.0) (fdiv (fsub wave (lit 490.0)) (fsub (lit 575.0) (lit 490.0))))
  else if flt wave (lit 585.0) then
    (lit 0.0, lit 1.0, lit 0.0)
  else if flt wave (lit 620.0) then
    (fdiv (fsub wave (lit 585.0)) (fsub (lit 620.0) (lit 585.0)), lit 1.0, lit 0.0)
  else if flt wave (lit 750.0) then
    (lit 1.0,
      fsub (lit 1.0) (fdiv (fsub wave (lit 620.0)) (fsub (lit 750.0) (lit 620.0))), lit 0.0)
  else
    let r := fadd (lit 1.0)
      (fmul (lit 0.3) (fdiv (fsub (lit 780.0) wave) (fsub (lit 780.0) (lit 750.0))))
    (fmin r (lit 1.0), lit 0.0, lit 0.0)

/-- `wavelengthToRGB`, `spectral.h` lines 37-86: `glm::vec3(r, g, b) * intensity`. -/
def wavelengthToRGB (wavelength_nm : F32) : F32 × F32 × F32 :=
  let wave := wavelength_nm
  let c := segmentRGB wave
  let i := intensity wave
  (fmul c.1 i, fmul c.2.1 i, fmul c.2.2 i)

/-! ## `src/main.cpp` -/

/-- `struct Vertex`, `main.cpp` lines 141-144. -/
structure Vertex where
  px : F32
  py : F32
  pz : F32
  pw : F32
  nx : F32
  ny : F32
  nz : F32
  nw : F32

/-- `struct Triangle`, `main.cpp` lines 146-148 (`uint32_t` fields). -/
structure Triangle where
  v0 : ℕ
  v1 : ℕ
  v2 : ℕ
  w : ℕ

/-- The mutable globals of `main.cpp` (lines 44-48 and 150-151). -/
structure Globals where
  gFrameIndex : ℕ
  gCenterX : F32
  gCenterZ : F32
  gRadiusXZ : F32
  gCurrentMode : ℤ
  gVertices : List Vertex
  gTriangles : List Triangle

/-- The initial values of the globals. -/
def initGlobals : Globals :=
  { gFrameIndex := 0, gCenterX := lit 0.0, gCenterZ := lit 0.0, gRadiusXZ := lit 1.0,
    gCurrentMode := 0, gVertices := [], gTriangles := [] }

/-- Assimp's `aiVector3D`. -/
structure AiVector3D where
  x : F32
  y : F32
  z : F32

/-- Assimp's `aiFace`: `mNumIndices` is the length of `mIndices`. -/
structure AiFace where
  mIndices : List ℕ

/-- Assimp's `aiMesh`: `mNumVertices` and `mNumFaces` are the lengths of the lists,
`mNormals` is absent when the pointer is null. -/
structure AiMesh where
  mVertices : List AiVector3D
  mNormals : Option (List AiVector3D)
  mFaces : List AiFace

/-- Assimp's `aiScene` as far as `loadOBJ_Assimp` reads it. -/
structure AiScene where
  hasRootNode : Bool
  incomplete : Bool
  mMeshes : List AiMesh

/-- `aiMesh::HasNormals`. -/
def AiMesh.HasNormals (mesh : AiMesh) : Bool :=
  mesh.mNormals.isSome && decide (0 < mesh.mVertices.length)

/-- Body of the vertex loop, `main.cpp` lines 175-191. -/
def mkVertex (mesh : AiMesh) (i : ℕ) (p : AiVector3D) : Vertex :=
  let n : AiVector3D :=
    if mesh.HasNormals then
      (mesh.mNormals.getD []).getD i { x := lit 0.0, y := lit 0.0, z := lit 0.0 }
    else { x := lit 0.0, y := lit 0.0, z := lit 1.0 }
  { px := p.x, py := p.y, pz := p.z, pw := lit 1.0, nx := n.x, ny := n.y, nz := n.z, nw := lit 0.0 }

/-- The vertex loop, `main.cpp` lines 175-191. -/
def loadVertices (mesh : AiMesh) : List Vertex :=
  mesh.mVertices.enum.map (fun ip => mkVertex mesh ip.1 ip.2)

/-- The face loop, `main.cpp` lines 193-203: faces that are not triangles are skipped. -/
def loadTriangles (mesh : AiMesh) : List Triangle :=
  mesh.mFaces.filterMap (fun face =>
    match face.mIndices with
    | [a, b, c] => some { v0 := a, v1 := b, v2 := c, w := 0 }
    | _ => none)

/-- The running `minX, maxX, minZ, maxZ` of `main.cpp` lines 205-212. -/
structure Bounds where
  minX : F32
  maxX : F32
  minZ : F32
  maxZ : F32

/-- Initial sentinels, `main.cpp` lines 205-206. -/
def initBounds : Bounds :=
  { minX := lit 1e30, maxX := fneg (lit 1e30), minZ := lit 1e30, maxZ := fneg (lit 1e30) }

/-- Body of the bounds loop, `main.cpp` lines 208-211. -/
def boundsStep (b : Bounds) (v : Vertex) : Bounds :=
  { minX := fmin b.minX v.px, maxX := fmax b.maxX v.px,
    minZ := fmin b.minZ v.pz, maxZ := fmax b.maxZ v.pz }

/-- The bounds loop, `main.cpp` lines 207-212. -/
def xzBounds (vs : List Vertex) : Bounds := vs.foldl boundsStep initBounds

/-- The normalization pass, `main.cpp` lines 205-218: `(gCenterX, gCenterZ, gRadiusXZ)`. -/
def normalizeXZ (vs : List Vertex) : F32 × F32 × F32 :=
  let b := xzBounds vs
  let rX := fmul (lit 0.5) (fsub b.maxX b.minX)
  let rZ := fmul (lit 0.5) (fsub b.maxZ b.minZ)
  (fmul (lit 0.5) (fadd b.minX b.maxX), fmul (lit 0.5) (fadd b.minZ b.maxZ),
    fmul (fmax rX rZ) (lit 1.05))

/-- `loadOBJ_Assimp`, `main.cpp` lines 153-226, applied to the result of
`importer.ReadFile` (`none` is the null scene).  Returns the `bool` result and the globals. -/
def loadOBJ_Assimp (scene : Option AiScene) (g : Globals) : Bool × Globals :=
  match scene with
  | none => (false, g)
  | some sc =>
    if !sc.hasRootNode || sc.incomplete then (false, g)
    else
      match sc.mMeshes with
      | [] => (false, g)
      | mesh :: _ =>
        let vs := loadVertices mesh
        let ts := loadTriangles mesh
        let n := normalizeXZ vs
        (true, { g with gVertices := vs, gTriangles := ts,
                        gCenterX := n.1, gCenterZ := n.2.1, gRadiusXZ := n.2.2 })

/-- Value of `GLFW_KEY_SPACE` in `GLFW/glfw3.h`. -/
def GLFW_KEY_SPACE : ℤ := 32

/-- Value of `GLFW_KEY_R` in `GLFW/glfw3.h`. -/
def GLFW_KEY_R : ℤ := 82

/-- Value of `GLFW_PRESS` in `GLFW/glfw3.h`. -/
def GLFW_PRESS : ℤ := 1

/-- `key_callback`, `main.cpp` lines 228-243 (`%` on `int` truncates towards zero). -/
def key_callback (key scancode action mods : ℤ) (g : Globals) : Globals :=
  let g1 :=
    if key = GLFW_KEY_SPACE ∧ action = GLFW_PRESS then
      { g with gCurrentMode := Int.tmod (g.gCurrentMode + 1) 4, gFrameIndex := 0 }
    else g
  if key = GLFW_KEY_R ∧ action = GLFW_PRESS then { g1 with gFrameIndex := 0 } else g1

/-- `WINDOW_WIDTH`, `main.cpp` line 41. -/
def WINDOW_WIDTH : ℕ := 1280

/-- `WINDOW_HEIGHT`, `main.cpp` line 42. -/
def WINDOW_HEIGHT : ℕ := 720

/-- `MAX_FRAMES`, `main.cpp` line 355. -/
def MAX_FRAMES : ℕ := 1000

/-- One call of `glDispatchCompute` with the uniform values offered to the kernel,
`main.cpp` lines 364-384. -/
structure Dispatch where
  uResolution : ℕ × ℕ
  uNumVertices : ℕ
  uNumTriangles : ℕ
  uFrameIndex : ℕ
  uMode : ℤ
  uCenterXZ : F32 × F32
  uRadius : F32
  groupsX : ℕ
  groupsY : ℕ

/-- The table `modeNames`, `main.cpp` line 399. -/
def modeNames : List String := ["brilliance", "diffuse", "bounces", "fire"]

/-- The lookup `modeNames[gCurrentMode]`; `none` when the index is out of bounds. -/
def modeName (mode : ℤ) : Option String :=
  if 0 ≤ mode then modeNames.get? mode.toNat else none

/-- A call of `saveScreenshot`: the looked-up mode label and the frame number that
are formatted into the file name, `main.cpp` lines 398-401. -/
structure Capture where
  label : Option String
  frame : ℕ

/-- The capture condition of the main loop, `main.cpp` line 395. -/
def captureDue (gFrameIndex : ℕ) : Bool :=
  decide (100 ≤ gFrameIndex) && gFrameIndex % 100 == 0

/-- What one iteration of the main loop emits. -/
structure TickOut where
  dispatches : List Dispatch
  capture : Option Capture

/-- One iteration of the main loop after `glfwPollEvents`, `main.cpp` lines 360-402. -/
def tick (g : Globals) : Globals × TickOut :=
  let accumulating := decide (g.gFrameIndex < MAX_FRAMES)
  let mode := g.gCurrentMode
  let d : Dispatch :=
    { uResolution := (WINDOW_WIDTH, WINDOW_HEIGHT),
      uNumVertices := g.gVertices.length % 2 ^ 32,
      uNumTriangles := g.gTriangles.length % 2 ^ 32,
      uFrameIndex := g.gFrameIndex, uMode := mode,
      uCenterXZ := (g.gCenterX, g.gCenterZ), uRadius := g.gRadiusXZ,
      groupsX := (WINDOW_WIDTH + 7) / 8, groupsY := (WINDOW_HEIGHT + 7) / 8 }
  let g1 := if accumulating then { g with gFrameIndex := (g.gFrameIndex + 1) % 2 ^ 32 } else g
  let ds := if accumulating then [d] else []
  let cap :=
    if captureDue g1.gFrameIndex then
      some { label := modeName g1.gCurrentMode, frame := g1.gFrameIndex }
    else none
  (g1, { dispatches := ds, capture := cap })

/-- What can happen to the globals once the loop runs: an iteration of the loop body,
or a key event delivered to `key_callback`. -/
inductive Step where
  | tick
  | key (key scancode action mods : ℤ)

/-- The advance event: SPACE pressed. -/
def Step.advance : Step := Step.key GLFW_KEY_SPACE 0 GLFW_PRESS 0

/-- The reset event: R pressed. -/
def Step.reset : Step := Step.key GLFW_KEY_R 0 GLFW_PRESS 0

/-- Effect of one step on the globals, with the dispatches it issues. -/
def step (g : Globals) : Step → Globals × List Dispatch
  | Step.tick => ((tick g).1, (tick g).2.dispatches)
  | Step.key k sc a m => (key_callback k sc a m g, [])

/-- Run a sequence of steps, collecting the dispatches in order. -/
def run : List Step → Globals → Globals × List Dispatch
  | [], g => (g, [])
  | s :: rest, g =>
    let r := step g s
    let r2 := run rest r.1
    (r2.1, r.2 ++ r2.2)

/-! ## Spec-side formulas and test inputs -/

/-- The normalization as the specification words it: `center = midpoint` of the X and Z
bounds and `radius = 1.05 × max(halfExtentX, halfExtentZ)`, in binary32 arithmetic. -/
def normalizeSpec (minX maxX minZ maxZ : F32) : F32 × F32 × F32 :=
  (fdiv (fadd minX maxX) (lit 2.0), fdiv (fadd minZ maxZ) (lit 2.0),
    fmul (lit 1.05) (fmax (fdiv (fsub maxX minX) (lit 2.0)) (fdiv (fsub maxZ minZ) (lit 2.0))))

/-- A coordinate lies strictly between the sentinels `-1e30f` and `1e30f`. -/
def inSentinels (x : F32) : Bool := flt (fneg (lit 1e30)) x && flt x (lit 1e30)

/-- A vertex at the given position, filled in as the loader does for a mesh without normals. -/
def vertexAt (x y z : ℚ) : Vertex :=
  { px := lit x, py := lit y, pz := lit z, pw := lit 1.0,
    nx := lit 0.0, ny := lit 0.0, nz := lit 1.0, nw := lit 0.0 }

/-- The three vertices `(-1,0,-2), (1,0,-2), (0,0,2)`. -/
def triangleVertices : List Vertex := [vertexAt (-1) 0 (-2), vertexAt 1 0 (-2), vertexAt 0 0 2]

/-- A scene whose first mesh has the given positions, no normals and no faces. -/
def sceneOf (ps : List AiVector3D) : AiScene :=
  { hasRootNode := true, incomplete := false,
    mMeshes := [{ mVertices := ps, mNormals := none, mFaces := [] }] }

/-- Two distinct vertices that share one X/Z point, `(5, 1, 7)` and `(5, 2, 7)`. -/
def degenerateVertices : List Vertex := [vertexAt 5 1 7, vertexAt 5 2 7]

/-- The positions `(-1,0,-2), (1,0,-2), (0,0,2)` as Assimp delivers them. -/
def trianglePositions : List AiVector3D :=
  [{ x := lit (-1), y := lit 0, z := lit (-2) }, { x := lit 1, y := lit 0, z := lit (-2) },
    { x := lit 0, y := lit 0, z := lit 2 }]
/-! ## The accumulation loop and the render-mode state machine -/

theorem tick_frameIndex (g : Globals) :
    (tick g).1.gFrameIndex =
      if g.gFrameIndex < MAX_FRAMES then g.gFrameIndex + 1 else g.gFrameIndex := by
  unfold tick MAX_FRAMES
  by_cases h : g.gFrameIndex < 1000
  · have h2 : (g.gFrameIndex + 1) % 2 ^ 32 = g.gFrameIndex + 1 := by
      apply Nat.mod_eq_of_lt
      omega
    simp only [h, decide_True, if_true, h2]
  · simp [h]

theorem tick_dispatches (g : Globals) :
    (tick g).2.dispatches.map Dispatch.uFrameIndex =
      if g.gFrameIndex < MAX_FRAMES then [g.gFrameIndex] else [] := by
  unfold tick
  by_cases h : g.gFrameIndex < MAX_FRAMES <;> simp [h]

theorem tick_mode (g : Globals) : (tick g).1.gCurrentMode = g.gCurrentMode := by
  unfold tick
  by_cases h : g.gFrameIndex < MAX_FRAMES <;> simp [h]

theorem run_ticks (n : ℕ) : ∀ g : Globals, g.gFrameIndex ≤ MAX_FRAMES →
    (run (List.replicate n Step.tick) g).1.gFrameIndex = min (g.gFrameIndex + n) MAX_FRAMES ∧
    (run (List.replicate n Step.tick) g).2.map Dispatch.uFrameIndex =
      List.range' g.gFrameIndex (min (g.gFrameIndex + n) MAX_FRAMES - g.gFrameIndex) := by
  induction n with
  | zero =>
    intro g hg
    simp [run, Nat.min_eq_left hg]
  | succ n ih =>
    intro g hg
    have hf := tick_frameIndex g
    have hd := tick_dispatches g
    have hle : (tick g).1.gFrameIndex ≤ MAX_FRAMES := by
      rw [hf]; split <;> omega
    obtain ⟨ih1, ih2⟩ := ih (tick g).1 hle
    simp only [List.replicate_succ, run, step, List.map_append]
    rw [ih1, ih2, hd, hf]
    unfold MAX_FRAMES at *
    by_cases h : g.gFrameIndex < 1000
    · rw [if_pos h, if_pos h]
      constructor
      · omega
      · have e1 : min (g.gFrameIndex + (n + 1)) 1000 - g.gFrameIndex
            = (min (g.gFrameIndex + 1 + n) 1000 - (g.gFrameIndex + 1)) + 1 := by omega
        rw [e1, List.range'_succ]
        rfl
    · rw [if_neg h, if_neg h]
      have e1 : min (g.gFrameIndex + n) 1000 = g.gFrameIndex := by omega
      have e2 : min (g.gFrameIndex + (n + 1)) 1000 = g.gFrameIndex := by omega
      rw [e1, e2]
      simp

theorem key_callback_space (sc m : ℤ) (g : Globals) :
    key_callback GLFW_KEY_SPACE sc GLFW_PRESS m g =
      { g with gCurrentMode := Int.tmod (g.gCurrentMode + 1) 4, gFrameIndex := 0 } := by
  have hne : ¬ (GLFW_KEY_SPACE = GLFW_KEY_R) := by decide
  simp only [key_callback, hne, and_self, false_and, if_true, if_false]

theorem key_callback_r (sc m : ℤ) (g : Globals) :
    key_callback GLFW_KEY_R sc GLFW_PRESS m g = { g with gFrameIndex := 0 } := by
  have hne : ¬ (GLFW_KEY_R = GLFW_KEY_SPACE) := by decide
  simp only [key_callback, hne, and_self, false_and, if_true, if_false]

theorem key_callback_other (k sc a m : ℤ) (g : Globals)
    (h1 : ¬ (k = GLFW_KEY_SPACE ∧ a = GLFW_PRESS)) (h2 : ¬ (k = GLFW_KEY_R ∧ a = GLFW_PRESS)) :
    key_callback k sc a m g = g := by
  simp only [key_callback, h1, h2, if_false]

theorem key_callback_cases (k sc a m : ℤ) (g : Globals) :
    key_callback k sc a m g
        = { g with gCurrentMode := Int.tmod (g.gCurrentMode + 1) 4, gFrameIndex := 0 } ∨
      key_callback k sc a m g = { g with gFrameIndex := 0 } ∨
      key_callback k sc a m g = g := by
  by_cases h1 : k = GLFW_KEY_SPACE ∧ a = GLFW_PRESS
  · obtain ⟨rfl, rfl⟩ := h1
    exact Or.inl (key_callback_space sc m g)
  · by_cases h2 : k = GLFW_KEY_R ∧ a = GLFW_PRESS
    · obtain ⟨rfl, rfl⟩ := h2
      exact Or.inr (Or.inl (key_callback_r sc m g))
    · exact Or.inr (Or.inr (key_callback_other k sc a m g h1 h2))

theorem key_callback_frame_le (k sc a m : ℤ) (g : Globals) (h : g.gFrameIndex ≤ MAX_FRAMES) :
    (key_callback k sc a m g).gFrameIndex ≤ MAX_FRAMES := by
  rcases key_callback_cases k sc a m g with e | e | e <;> rw [e]
  · exact Nat.zero_le _
  · exact Nat.zero_le _
  · exact h

theorem key_callback_mode_range (k sc a m : ℤ) (g : Globals)
    (h : 0 ≤ g.gCurrentMode ∧ g.gCurrentMode < 4) :
    0 ≤ (key_callback k sc a m g).gCurrentMode ∧ (key_callback k sc a m g).gCurrentMode < 4 := by
  have ht : Int.tmod (g.gCurrentMode + 1) 4 = (g.gCurrentMode + 1) % 4 :=
    Int.tmod_eq_emod (by omega) (by decide)
  rcases key_callback_cases k sc a m g with e | e | e <;> rw [e]
  · show 0 ≤ Int.tmod (g.gCurrentMode + 1) 4 ∧ Int.tmod (g.gCurrentMode + 1) 4 < 4
    rw [ht]
    omega
  · exact h
  · exact h

theorem step_invariant (s : Step) (g : Globals)
    (h : g.gFrameIndex ≤ MAX_FRAMES ∧ 0 ≤ g.gCurrentMode ∧ g.gCurrentMode < 4) :
    (step g s).1.gFrameIndex ≤ MAX_FRAMES ∧ 0 ≤ (step g s).1.gCurrentMode ∧
      (step g s).1.gCurrentMode < 4 := by
  cases s with
  | tick =>
    simp only [step, tick_mode]
    refine ⟨?_, h.2.1, h.2.2⟩
    rw [tick_frameIndex]
    split <;> omega
  | key k sc a m =>
    simp only [step]
    exact ⟨key_callback_frame_le k sc a m g h.1, key_callback_mode_range k sc a m g h.2⟩

theorem run_invariant (steps : List Step) : ∀ g : Globals,
    (g.gFrameIndex ≤ MAX_FRAMES ∧ 0 ≤ g.gCurrentMode ∧ g.gCurrentMode < 4) →
    (run steps g).1.gFrameIndex ≤ MAX_FRAMES ∧ 0 ≤ (run steps g).1.gCurrentMode ∧
      (run steps g).1.gCurrentMode < 4 := by
  induction steps with
  | nil => intro g h; simpa [run] using h
  | cons s rest ih =>
    intro g h
    simp only [run]
    exact ih _ (step_invariant s g h)

theorem modeName_isSome (mode : ℤ) (h0 : 0 ≤ mode) (h4 : mode < 4) :
    (modeName mode).isSome = true := by
  have h : mode = 0 ∨ mode = 1 ∨ mode = 2 ∨ mode = 3 := by omega
  rcases h with h | h | h | h <;> subst h <;> decide

/-- C1: from frame counter 0 and with no key events, the i-th iteration of the main loop
(1 ≤ i ≤ 1000) dispatches exactly once, with `uFrameIndex = i - 1`, and leaves the counter
at `i`; 1000 iterations dispatch 1000 times and leave the counter at 1000; every later
iteration dispatches nothing and leaves the counter at 1000. -/
theorem accumulation_budget (g : Globals) (h0 : g.gFrameIndex = 0) :
    (∀ i : ℕ, 1 ≤ i → i ≤ 1000 →
      (tick (run (List.replicate (i - 1) Step.tick) g).1).2.dispatches.map Dispatch.uFrameIndex
        = [i - 1] ∧
      (tick (run (List.replicate (i - 1) Step.tick) g).1).1.gFrameIndex = i) ∧
    (run (List.replicate 1000 Step.tick) g).2.length = 1000 ∧
    (run (List.replicate 1000 Step.tick) g).1.gFrameIndex = 1000 ∧
    (∀ i : ℕ, 1000 < i →
      (tick (run (List.replicate (i - 1) Step.tick) g).1).2.dispatches = [] ∧
      (tick (run (List.replicate (i - 1) Step.tick) g).1).1.gFrameIndex = 1000) := by
  have hg : g.gFrameIndex ≤ MAX_FRAMES := by rw [h0]; exact Nat.zero_le _
  have key : ∀ n : ℕ, (run (List.replicate n Step.tick) g).1.gFrameIndex = min n 1000 := by
    intro n
    have := (run_ticks n g hg).1
    rw [h0, Nat.zero_add] at this
    exact this
  refine ⟨?_, ?_, ?_, ?_⟩
  · intro i h1 h2
    have hk := key (i - 1)
    have hlt : (run (List.replicate (i - 1) Step.tick) g).1.gFrameIndex < MAX_FRAMES := by
      rw [hk]; unfold MAX_FRAMES; omega
    rw [tick_dispatches, tick_frameIndex, if_pos hlt, if_pos hlt, hk]
    constructor
    · congr 1; omega
    · omega
  · have h := (run_ticks 1000 g hg).2
    have hl := congrArg List.length h
    rw [List.length_map, List.length_range', h0] at hl
    exact hl
  · exact key 1000
  · intro i hi
    have hk := key (i - 1)
    have hnlt : ¬ (run (List.replicate (i - 1) Step.tick) g).1.gFrameIndex < MAX_FRAMES := by
      rw [hk]; unfold MAX_FRAMES; omega
    have hd := tick_dispatches (run (List.replicate (i - 1) Step.tick) g).1
    rw [if_neg hnlt] at hd
    rw [tick_frameIndex, if_neg hnlt, hk]
    exact ⟨List.map_eq_nil_iff.mp hd, by omega⟩

theorem accumulation_budget_witness :
    initGlobals.gFrameIndex = 0 ∧
    (tick (run (List.replicate (7 - 1) Step.tick) initGlobals).1).2.dispatches.map
        Dispatch.uFrameIndex = [7 - 1] ∧
    (run (List.replicate 1000 Step.tick) initGlobals).2.length = 1000 ∧
    (tick (run (List.replicate (1001 - 1) Step.tick) initGlobals).1).2.dispatches = [] :=
  ⟨rfl, ((accumulation_budget initGlobals rfl).1 7 (by decide) (by decide)).1,
    (accumulation_budget initGlobals rfl).2.1,
    ((accumulation_budget initGlobals rfl).2.2.2 1001 (by decide)).1⟩

/-- C2: for a state with mode in {0,1,2,3}, a SPACE press sets the mode to
`(mode + 1) mod 4` (so mode 3 wraps to 0) and the frame counter to 0; an R press sets the
counter to 0 and keeps the mode; both keep the scene center and radius; every other
key/action pair leaves the state unchanged. -/
theorem key_callback_transitions (g : Globals) (sc m : ℤ)
    (hmode : g.gCurrentMode = 0 ∨ g.gCurrentMode = 1 ∨ g.gCurrentMode = 2 ∨ g.gCurrentMode = 3) :
    ((key_callback GLFW_KEY_SPACE sc GLFW_PRESS m g).gCurrentMode = (g.gCurrentMode + 1) % 4 ∧
      (key_callback GLFW_KEY_SPACE sc GLFW_PRESS m g).gFrameIndex = 0 ∧
      (g.gCurrentMode = 3 → (key_callback GLFW_KEY_SPACE sc GLFW_PRESS m g).gCurrentMode = 0)) ∧
    ((key_callback GLFW_KEY_R sc GLFW_PRESS m g).gFrameIndex = 0 ∧
      (key_callback GLFW_KEY_R sc GLFW_PRESS m g).gCurrentMode = g.gCurrentMode) ∧
    ((key_callback GLFW_KEY_SPACE sc GLFW_PRESS m g).gCenterX = g.gCenterX ∧
      (key_callback GLFW_KEY_SPACE sc GLFW_PRESS m g).gCenterZ = g.gCenterZ ∧
      (key_callback GLFW_KEY_SPACE sc GLFW_PRESS m g).gRadiusXZ = g.gRadiusXZ) ∧
    ((key_callback GLFW_KEY_R sc GLFW_PRESS m g).gCenterX = g.gCenterX ∧
      (key_callback GLFW_KEY_R sc GLFW_PRESS m g).gCenterZ = g.gCenterZ ∧
      (key_callback GLFW_KEY_R sc GLFW_PRESS m g).gRadiusXZ = g.gRadiusXZ) ∧
    (∀ key action : ℤ, ¬ (key = GLFW_KEY_SPACE ∧ action = GLFW_PRESS) →
      ¬ (key = GLFW_KEY_R ∧ action = GLFW_PRESS) → key_callback key sc action m g = g) := by
  have ht : Int.tmod (g.gCurrentMode + 1) 4 = (g.gCurrentMode + 1) % 4 :=
    Int.tmod_eq_emod (by omega) (by decide)
  rw [key_callback_space, key_callback_r]
  refine ⟨⟨ht, rfl, ?_⟩, ⟨rfl, rfl⟩, ⟨rfl, rfl, rfl⟩, ⟨rfl, rfl, rfl⟩, ?_⟩
  · intro h3
    show Int.tmod (g.gCurrentMode + 1) 4 = 0
    rw [h3]
    decide
  · intro key action h1 h2
    exact key_callback_other key sc action m g h1 h2

theorem key_callback_transitions_witness :
    (initGlobals.gCurrentMode = 0 ∨ initGlobals.gCurrentMode = 1 ∨ initGlobals.gCurrentMode = 2 ∨
      initGlobals.gCurrentMode = 3) ∧
    (key_callback GLFW_KEY_SPACE 0 GLFW_PRESS 0 initGlobals).gCurrentMode
      = (initGlobals.gCurrentMode + 1) % 4 :=
  ⟨Or.inl rfl, (key_callback_transitions initGlobals 0 0 (Or.inl rfl)).1.1⟩

/-- C3: in every state reached from mode 0 and counter 0 by ticks and key events (advance
and reset among them), the counter is at most `MAX_FRAMES` = 1000, the mode lies in
`0..3` so that the `modeNames` lookup is in bounds, and a tick dispatches (exactly once)
if and only if the counter is below `MAX_FRAMES` when the tick starts. -/
theorem reachable_invariant (steps : List Step) (g0 : Globals)
    (hc : g0.gFrameIndex = 0) (hm : g0.gCurrentMode = 0) :
    (run steps g0).1.gFrameIndex ≤ 1000 ∧
    0 ≤ (run steps g0).1.gCurrentMode ∧ (run steps g0).1.gCurrentMode < 4 ∧
    (modeName (run steps g0).1.gCurrentMode).isSome = true ∧
    ((tick (run steps g0).1).2.dispatches.length = 1 ↔ (run steps g0).1.gFrameIndex < MAX_FRAMES) ∧
    ((tick (run steps g0).1).2.dispatches = [] ↔ ¬ (run steps g0).1.gFrameIndex < MAX_FRAMES) := by
  have hinv := run_invariant steps g0 ⟨by rw [hc]; exact Nat.zero_le _, by omega, by omega⟩
  refine ⟨hinv.1, hinv.2.1, hinv.2.2, modeName_isSome _ hinv.2.1 hinv.2.2, ?_, ?_⟩
  · unfold tick
    by_cases h : (run steps g0).1.gFrameIndex < MAX_FRAMES <;> simp [h]
  · unfold tick
    by_cases h : (run steps g0).1.gFrameIndex < MAX_FRAMES <;> simp [h]

theorem reachable_invariant_witness :
    initGlobals.gFrameIndex = 0 ∧ initGlobals.gCurrentMode = 0 ∧
    (run [Step.tick, Step.advance, Step.tick, Step.reset] initGlobals).1.gCurrentMode < 4 :=
  ⟨rfl, rfl,
    (reachable_invariant [Step.tick, Step.advance, Step.tick, Step.reset] initGlobals rfl rfl).2.2.1⟩

/-- C7: the capture taken by an iteration of the main loop is decided by `captureDue` on
the frame counter alone; `captureDue c` holds exactly when `c ≥ 100` and `c mod 100 = 0`,
that is when `c` is a positive multiple of 100: false at 0, 99 and 150, true at 200. -/
theorem capture_predicate :
    (∀ g : Globals, (tick g).2.capture.isSome = captureDue (tick g).1.gFrameIndex) ∧
    (∀ c : ℕ, captureDue c = true ↔ (100 ≤ c ∧ c % 100 = 0)) ∧
    (∀ c : ℕ, captureDue c = true ↔ ∃ k : ℕ, 0 < k ∧ c = 100 * k) ∧
    captureDue 0 = false ∧ captureDue 99 = false ∧ captureDue 150 = false ∧
    captureDue 200 = true := by
  have hiff : ∀ c : ℕ, captureDue c = true ↔ (100 ≤ c ∧ c % 100 = 0) := by
    intro c
    simp [captureDue]
  refine ⟨?_, hiff, ?_, by decide, by decide, by decide, by decide⟩
  · intro g
    have e : (tick g).2.capture =
        if captureDue (tick g).1.gFrameIndex = true then
          some { label := modeName (tick g).1.gCurrentMode, frame := (tick g).1.gFrameIndex }
        else none := rfl
    rw [e]
    by_cases hc : captureDue (tick g).1.gFrameIndex = true
    · rw [if_pos hc, hc]
      rfl
    · rw [if_neg hc, Bool.eq_false_iff.mpr hc]
      rfl
  · intro c
    rw [hiff]
    constructor
    · rintro ⟨h1, h2⟩
      exact ⟨c / 100, by omega, by omega⟩
    · rintro ⟨k, hk, rfl⟩
      omega

/-! ## Properties of the binary32 model -/

theorem log2Fuel_eq_log (fuel : ℕ) : ∀ n : ℕ, n ≤ fuel → log2Fuel fuel n = Nat.log 2 n := by
  induction fuel with
  | zero =>
    intro n hn
    have : n = 0 := by omega
    subst this
    simp [log2Fuel]
  | succ f ih =>
    intro n hn
    unfold log2Fuel
    by_cases h : 2 ≤ n
    · rw [if_pos h, ih (n / 2) (by omega), Nat.log_of_one_lt_of_le (by decide) h]
    · rw [if_neg h, Nat.log_of_lt (by omega)]

theorem natLog2_spec (n : ℕ) (hn : 0 < n) : 2 ^ natLog2 n ≤ n ∧ n < 2 ^ (natLog2 n + 1) := by
  unfold natLog2
  rw [log2Fuel_eq_log n n le_rfl]
  exact ⟨Nat.pow_log_le_self 2 (by omega), Nat.lt_pow_succ_log_self (by decide) n⟩

theorem ilog2_spec (q : ℚ) (hq : q ≠ 0) :
    (2 : ℚ) ^ ilog2 q ≤ |q| ∧ |q| < (2 : ℚ) ^ (ilog2 q + 1) := by
  have hn0 : 0 < q.num.natAbs := Int.natAbs_pos.mpr (Rat.num_ne_zero.mpr hq)
  have hd0 : 0 < q.den := q.den_pos
  obtain ⟨hn1, hn2⟩ := natLog2_spec _ hn0
  obtain ⟨hd1, hd2⟩ := natLog2_spec _ hd0
  have habs : |q| = (q.num.natAbs : ℚ) / (q.den : ℚ) := by
    conv_lhs => rw [← Rat.num_div_den q]
    rw [abs_div, Nat.abs_cast, Nat.cast_natAbs, Int.cast_abs]
  have hdq : (0 : ℚ) < (q.den : ℚ) := by exact_mod_cast hd0
  have hn1q : (2 : ℚ) ^ (natLog2 q.num.natAbs) ≤ (q.num.natAbs : ℚ) := by exact_mod_cast hn1
  have hn2q : (q.num.natAbs : ℚ) < (2 : ℚ) ^ (natLog2 q.num.natAbs + 1) := by exact_mod_cast hn2
  have hd1q : (2 : ℚ) ^ (natLog2 q.den) ≤ (q.den : ℚ) := by exact_mod_cast hd1
  have hd2q : (q.den : ℚ) < (2 : ℚ) ^ (natLog2 q.den + 1) := by exact_mod_cast hd2
  have h2 : (0 : ℚ) < 2 := by norm_num
  have e0 : (2 : ℚ) ^ ((natLog2 q.num.natAbs : ℤ) - (natLog2 q.den : ℤ))
      = (2 : ℚ) ^ (natLog2 q.num.natAbs) / (2 : ℚ) ^ (natLog2 q.den) := by
    rw [zpow_sub₀ h2.ne', zpow_natCast, zpow_natCast]
  have pa : (0 : ℚ) < (2 : ℚ) ^ (natLog2 q.num.natAbs) := pow_pos h2 _
  have pb : (0 : ℚ) < (2 : ℚ) ^ (natLog2 q.den) := pow_pos h2 _
  unfold ilog2
  simp only
  split
  · rename_i hle
    refine ⟨hle, ?_⟩
    rw [zpow_add_one₀ h2.ne', e0, habs, div_lt_iff₀ hdq]
    rw [pow_succ] at hn2q
    have : (2 : ℚ) ^ natLog2 q.num.natAbs / 2 ^ natLog2 q.den * 2 * (q.den : ℚ)
        = (2 : ℚ) ^ natLog2 q.num.natAbs * 2 * ((q.den : ℚ) / 2 ^ natLog2 q.den) := by
      field_simp
    rw [this]
    have h1 : (1 : ℚ) ≤ (q.den : ℚ) / 2 ^ natLog2 q.den := by
      rw [le_div_iff₀ pb]; linarith
    nlinarith
  · rename_i hnle
    rw [sub_add_cancel]
    refine ⟨?_, lt_of_not_le hnle⟩
    rw [zpow_sub_one₀ h2.ne', e0, habs, le_div_iff₀ hdq]
    rw [pow_succ] at hd2q
    have : (2 : ℚ) ^ natLog2 q.num.natAbs / 2 ^ natLog2 q.den * 2⁻¹ * (q.den : ℚ)
        = (2 : ℚ) ^ natLog2 q.num.natAbs * ((q.den : ℚ) / (2 ^ natLog2 q.den * 2)) := by
      field_simp
    rw [this]
    have h1 : (q.den : ℚ) / (2 ^ natLog2 q.den * 2) ≤ 1 := by
      rw [div_le_iff₀ (by positivity)]; linarith
    nlinarith

theorem roundEven_ge_floor (q : ℚ) : ⌊q⌋ ≤ roundEven q := by
  unfold roundEven
  simp only
  split
  · exact le_rfl
  · split
    · omega
    · split <;> omega

theorem roundEven_le_floor_succ (q : ℚ) : roundEven q ≤ ⌊q⌋ + 1 := by
  unfold roundEven
  simp only
  split
  · omega
  · split
    · omega
    · split <;> omega

theorem roundEven_intCast (n : ℤ) : roundEven (n : ℚ) = n := by
  unfold roundEven
  simp

theorem le_roundEven (n : ℤ) (q : ℚ) (h : (n : ℚ) ≤ q) : n ≤ roundEven q :=
  le_trans (Int.le_floor.mpr h) (roundEven_ge_floor q)

theorem roundEven_le (n : ℤ) (q : ℚ) (h : q ≤ (n : ℚ)) : roundEven q ≤ n := by
  rcases eq_or_lt_of_le h with h | h
  · rw [h, roundEven_intCast]
  · have : ⌊q⌋ < n := Int.floor_lt.mpr h
    have := roundEven_le_floor_succ q
    omega

theorem roundGrid_zero : roundGrid 0 = 0 := by
  unfold roundGrid
  rw [zero_div]
  have := roundEven_intCast 0
  rw [Int.cast_zero] at this
  rw [this, Int.cast_zero, zero_mul]

theorem zpow_two_shift (e : ℤ) : (2 : ℚ) ^ (e + 23) = 8388608 * (2 : ℚ) ^ e := by
  rw [zpow_add₀ (by norm_num : (2 : ℚ) ≠ 0)]
  norm_num
  ring

theorem grid_small_abs (m ea e : ℤ) (hm : |m| ≤ 2 ^ (24 : ℕ)) (h : ea < e) :
    |(m : ℚ) * (2 : ℚ) ^ ea| ≤ (2 : ℚ) ^ (e + 23) := by
  have h2 : (0 : ℚ) < 2 := by norm_num
  have hp : (0 : ℚ) < (2 : ℚ) ^ ea := zpow_pos h2 _
  rw [abs_mul, abs_of_pos hp]
  have hmq : |(m : ℚ)| ≤ 16777216 := by
    have : ((|m| : ℤ) : ℚ) ≤ ((2 ^ (24 : ℕ) : ℤ) : ℚ) := by exact_mod_cast hm
    rw [Int.cast_abs] at this
    norm_num at this
    exact this
  have hle : (2 : ℚ) ^ ea ≤ (2 : ℚ) ^ (e - 1) :=
    zpow_le_zpow_right₀ (by norm_num) (by omega)
  have e1 : (2 : ℚ) ^ (e + 23) = 16777216 * (2 : ℚ) ^ (e - 1) := by
    rw [show e + 23 = (e - 1) + 24 by ring, zpow_add₀ h2.ne']
    norm_num
    ring
  rw [e1]
  exact mul_le_mul hmq hle hp.le (by norm_num)

theorem grid_multiple (m ea e : ℤ) (h : e ≤ ea) :
    (m : ℚ) * (2 : ℚ) ^ ea = ((m * 2 ^ (ea - e).toNat : ℤ) : ℚ) * (2 : ℚ) ^ e := by
  have h2 : (2 : ℚ) ≠ 0 := by norm_num
  push_cast
  rw [mul_assoc, ← zpow_natCast, Int.toNat_of_nonneg (by omega), ← zpow_add₀ h2]
  congr 2
  ring

theorem roundGrid_ge (a q : ℚ) (ha : OnGrid a) (h : a ≤ q) : a ≤ roundGrid q := by
  obtain ⟨⟨m, ea, hm, hea, rfl⟩, _⟩ := ha
  by_cases hq : q = 0
  · subst hq
    rw [roundGrid_zero]
    exact h
  have hP : (0 : ℚ) < (2 : ℚ) ^ ulpExp q := zpow_pos (by norm_num) _
  unfold roundGrid
  by_cases hcase : ulpExp q ≤ ea
  · have key := grid_multiple m ea (ulpExp q) hcase
    have h1 : ((m * 2 ^ (ea - ulpExp q).toNat : ℤ) : ℚ) ≤ q / (2 : ℚ) ^ ulpExp q := by
      rw [le_div_iff₀ hP, ← key]
      exact h
    have h2 := le_roundEven _ _ h1
    rw [key]
    exact mul_le_mul_of_nonneg_right (by exact_mod_cast h2) hP.le
  · push_neg at hcase
    have he : ilog2 q = ulpExp q + 23 := by
      unfold ulpExp at hcase ⊢
      omega
    have hB : (2 : ℚ) ^ (ulpExp q + 23) ≤ |q| := by
      have := (ilog2_spec q hq).1
      rwa [he] at this
    have habs := grid_small_abs m ea (ulpExp q) hm hcase
    rw [zpow_two_shift] at hB habs
    have ha1 := neg_abs_le ((m : ℚ) * (2 : ℚ) ^ ea)
    have ha2 := le_abs_self ((m : ℚ) * (2 : ℚ) ^ ea)
    rcases lt_or_gt_of_ne hq with hneg | hpos
    · rw [abs_of_neg hneg] at hB
      have h1 : (((-8388608 : ℤ)) : ℚ) ≤ q / (2 : ℚ) ^ ulpExp q := by
        rw [le_div_iff₀ hP]
        push_cast
        linarith
      have h2 := le_roundEven _ _ h1
      have h3 : ((-8388608 : ℤ) : ℚ) * (2 : ℚ) ^ ulpExp q
          ≤ (roundEven (q / (2 : ℚ) ^ ulpExp q) : ℚ) * (2 : ℚ) ^ ulpExp q :=
        mul_le_mul_of_nonneg_right (by exact_mod_cast h2) hP.le
      push_cast at h3
      linarith
    · rw [abs_of_pos hpos] at hB
      have h1 : (((8388608 : ℤ)) : ℚ) ≤ q / (2 : ℚ) ^ ulpExp q := by
        rw [le_div_iff₀ hP]
        push_cast
        linarith
      have h2 := le_roundEven _ _ h1
      have h3 : ((8388608 : ℤ) : ℚ) * (2 : ℚ) ^ ulpExp q
          ≤ (roundEven (q / (2 : ℚ) ^ ulpExp q) : ℚ) * (2 : ℚ) ^ ulpExp q :=
        mul_le_mul_of_nonneg_right (by exact_mod_cast h2) hP.le
      push_cast at h3
      linarith

theorem roundGrid_le (b q : ℚ) (hb : OnGrid b) (h : q ≤ b) : roundGrid q ≤ b := by
  obtain ⟨⟨m, eb, hm, heb, rfl⟩, _⟩ := hb
  by_cases hq : q = 0
  · subst hq
    rw [roundGrid_zero]
    exact h
  have hP : (0 : ℚ) < (2 : ℚ) ^ ulpExp q := zpow_pos (by norm_num) _
  unfold roundGrid
  by_cases hcase : ulpExp q ≤ eb
  · have key := grid_multiple m eb (ulpExp q) hcase
    have h1 : q / (2 : ℚ) ^ ulpExp q ≤ ((m * 2 ^ (eb - ulpExp q).toNat : ℤ) : ℚ) := by
      rw [div_le_iff₀ hP, ← key]
      exact h
    have h2 := roundEven_le _ _ h1
    rw [key]
    exact mul_le_mul_of_nonneg_right (by exact_mod_cast h2) hP.le
  · push_neg at hcase
    have he : ilog2 q = ulpExp q + 23 := by
      unfold ulpExp at hcase ⊢
      omega
    have hB : (2 : ℚ) ^ (ulpExp q + 23) ≤ |q| := by
      have := (ilog2_spec q hq).1
      rwa [he] at this
    have habs := grid_small_abs m eb (ulpExp q) hm hcase
    rw [zpow_two_shift] at hB habs
    have ha1 := neg_abs_le ((m : ℚ) * (2 : ℚ) ^ eb)
    have ha2 := le_abs_self ((m : ℚ) * (2 : ℚ) ^ eb)
    rcases lt_or_gt_of_ne hq with hneg | hpos
    · rw [abs_of_neg hneg] at hB
      have h1 : q / (2 : ℚ) ^ ulpExp q ≤ (((-8388608 : ℤ)) : ℚ) := by
        rw [div_le_iff₀ hP]
        push_cast
        linarith
      have h2 := roundEven_le _ _ h1
      have h3 : (roundEven (q / (2 : ℚ) ^ ulpExp q) : ℚ) * (2 : ℚ) ^ ulpExp q
          ≤ ((-8388608 : ℤ) : ℚ) * (2 : ℚ) ^ ulpExp q :=
        mul_le_mul_of_nonneg_right (by exact_mod_cast h2) hP.le
      push_cast at h3
      linarith
    · rw [abs_of_pos hpos] at hB
      have h1 : q / (2 : ℚ) ^ ulpExp q ≤ (((8388608 : ℤ)) : ℚ) := by
        rw [div_le_iff₀ hP]
        push_cast
        linarith
      have h2 := roundEven_le _ _ h1
      have h3 : (roundEven (q / (2 : ℚ) ^ ulpExp q) : ℚ) * (2 : ℚ) ^ ulpExp q
          ≤ ((8388608 : ℤ) : ℚ) * (2 : ℚ) ^ ulpExp q :=
        mul_le_mul_of_nonneg_right (by exact_mod_cast h2) hP.le
      push_cast at h3
      linarith

/-- Rounding keeps a value between any two grid points that enclose it. -/
theorem round_inRange (q a b : ℚ) (ha : OnGrid a) (hb : OnGrid b) (h1 : a ≤ q) (h2 : q ≤ b) :
    (F32.round q).InRange a b := by
  have hlo := roundGrid_ge a q ha h1
  have hhi := roundGrid_le b q hb h2
  have ha2 := (abs_lt.mp ha.2).1
  have hb2 := (abs_lt.mp hb.2).2
  refine ⟨roundGrid q, ?_, hlo, hhi⟩
  unfold F32.round F32.ofGrid
  rw [if_neg (by linarith), if_neg (by linarith)]

theorem isqrtFuel_spec (b : ℕ) : ∀ r n : ℕ, r * r ≤ n → n < (r + 2 ^ b) * (r + 2 ^ b) →
    isqrtFuel b r n * isqrtFuel b r n ≤ n ∧
      n < (isqrtFuel b r n + 1) * (isqrtFuel b r n + 1) := by
  induction b with
  | zero =>
    intro r n h1 h2
    simp only [isqrtFuel]
    exact ⟨h1, by simpa using h2⟩
  | succ b ih =>
    intro r n h1 h2
    unfold isqrtFuel
    by_cases hc : (r + 2 ^ b) * (r + 2 ^ b) ≤ n
    · rw [if_pos hc]
      apply ih _ _ hc
      have : r + 2 ^ b + 2 ^ b = r + 2 ^ (b + 1) := by rw [pow_succ]; ring
      rw [this]
      exact h2
    · rw [if_neg hc]
      exact ih _ _ h1 (by omega)

theorem isqrt_spec (n : ℕ) : isqrt n * isqrt n ≤ n ∧ n < (isqrt n + 1) * (isqrt n + 1) := by
  unfold isqrt
  apply isqrtFuel_spec
  · simp
  · rw [Nat.zero_add, ← pow_add]
    rcases Nat.eq_zero_or_pos n with h | h
    · subst h
      exact pow_pos (by decide) _
    · have h2 := (natLog2_spec n h).2
      refine lt_of_lt_of_le h2 (Nat.pow_le_pow_right (by decide) ?_)
      omega

theorem le_isqrt (k n : ℕ) (h : k * k ≤ n) : k ≤ isqrt n := by
  by_contra hlt
  push_neg at hlt
  have h2 := (isqrt_spec n).2
  have : (isqrt n + 1) * (isqrt n + 1) ≤ k * k := Nat.mul_le_mul hlt hlt
  omega

theorem isqrt_lt (k n : ℕ) (h : n < k * k) : isqrt n < k := by
  by_contra hge
  push_neg at hge
  have h1 := (isqrt_spec n).1
  have : k * k ≤ isqrt n * isqrt n := Nat.mul_le_mul hge hge
  omega

/-- The square root of a finite value that is at least 1 is finite and at least 1. -/
theorem fsqrt_ge_one (x : ℚ) (h1 : 1 ≤ x) (h2 : x < (2 : ℚ) ^ (128 : ℕ)) :
    ∃ s : ℚ, fsqrt (F32.fin x) = F32.fin s ∧ 1 ≤ s := by
  have hx0 : x ≠ 0 := by linarith
  have two : (0 : ℚ) < 2 := by norm_num
  obtain ⟨hl1, hl2⟩ := ilog2_spec x hx0
  rw [abs_of_pos (by linarith)] at hl1 hl2
  -- the exponent of `x` lies in `0 .. 127`
  have hk0 : 0 ≤ ilog2 x := by
    by_contra hneg
    push_neg at hneg
    have : (2 : ℚ) ^ (ilog2 x + 1) ≤ (2 : ℚ) ^ (0 : ℤ) :=
      zpow_le_zpow_right₀ (by norm_num) (by omega)
    rw [zpow_zero] at this
    linarith
  have hk1 : ilog2 x < 128 := by
    by_contra hge
    push_neg at hge
    have : (2 : ℚ) ^ (128 : ℤ) ≤ (2 : ℚ) ^ ilog2 x :=
      zpow_le_zpow_right₀ (by norm_num) hge
    have e : (2 : ℚ) ^ (128 : ℤ) = (2 : ℚ) ^ (128 : ℕ) := by norm_cast
    rw [e] at this
    linarith
  obtain ⟨h, hh⟩ : ∃ h : ℤ, h = ilog2 x / 2 := ⟨_, rfl⟩
  have hh0 : 0 ≤ h := by omega
  have hh1 : h ≤ 63 := by omega
  have hh2 : 2 * h ≤ ilog2 x := by omega
  have hh3 : ilog2 x + 1 ≤ 2 * h + 2 := by omega
  have he : max (ilog2 x / 2 - 23) (-149) = h - 23 := by omega
  have hP : (0 : ℚ) < (2 : ℚ) ^ (2 * (h - 23)) := zpow_pos two _
  have hE : (0 : ℚ) < (2 : ℚ) ^ (h - 23) := zpow_pos two _
  -- the scaled radicand lies in `[2^46, 2^48)`
  have ht1 : (2 : ℚ) ^ (46 : ℕ) ≤ x / (2 : ℚ) ^ (2 * (h - 23)) := by
    rw [le_div_iff₀ hP]
    have e : (2 : ℚ) ^ (46 : ℕ) * (2 : ℚ) ^ (2 * (h - 23)) = (2 : ℚ) ^ (2 * h) := by
      rw [← zpow_natCast, ← zpow_add₀ two.ne']
      congr 1
      push_cast
      ring
    rw [e]
    exact le_trans (zpow_le_zpow_right₀ (by norm_num) hh2) hl1
  have ht2 : x / (2 : ℚ) ^ (2 * (h - 23)) < (2 : ℚ) ^ (48 : ℕ) := by
    rw [div_lt_iff₀ hP]
    have e : (2 : ℚ) ^ (48 : ℕ) * (2 : ℚ) ^ (2 * (h - 23)) = (2 : ℚ) ^ (2 * h + 2) := by
      rw [← zpow_natCast, ← zpow_add₀ two.ne']
      congr 1
      push_cast
      ring
    rw [e]
    exact lt_of_lt_of_le hl2 (zpow_le_zpow_right₀ (by norm_num) hh3)
  obtain ⟨t, ht⟩ : ∃ t : ℚ, t = x / (2 : ℚ) ^ (2 * (h - 23)) := ⟨_, rfl⟩
  rw [← ht] at ht1 ht2
  have hfl1 : (2 : ℤ) ^ (46 : ℕ) ≤ ⌊t⌋ := by
    apply Int.le_floor.mpr
    push_cast
    exact ht1
  have hfl2 : ⌊t⌋ < (2 : ℤ) ^ (48 : ℕ) := by
    apply Int.floor_lt.mpr
    push_cast
    exact ht2
  have hs1 : 2 ^ 23 ≤ isqrt ⌊t⌋.toNat := by
    apply le_isqrt
    have : ((2 ^ 23 * 2 ^ 23 : ℕ) : ℤ) ≤ ⌊t⌋ := by
      norm_num at hfl1 ⊢
      exact hfl1
    omega
  have hs2 : isqrt ⌊t⌋.toNat < 2 ^ 24 := by
    apply isqrt_lt
    have : ⌊t⌋ < ((2 ^ 24 * 2 ^ 24 : ℕ) : ℤ) := by
      norm_num at hfl2 ⊢
      exact hfl2
    omega
  obtain ⟨s, hs⟩ : ∃ s : ℕ, s = isqrt ⌊t⌋.toNat := ⟨_, rfl⟩
  rw [← hs] at hs1 hs2
  obtain ⟨m, hm⟩ : ∃ m : ℕ, m = (if t < ((s : ℚ) + 1 / 2) ^ (2 : ℕ) then s
      else if ((s : ℚ) + 1 / 2) ^ (2 : ℕ) < t then s + 1
      else if s % 2 = 0 then s else s + 1) := ⟨_, rfl⟩
  have hm1 : 2 ^ 23 ≤ m := by
    rw [hm]
    split
    · exact hs1
    · split
      · omega
      · split <;> omega
  have hm2 : m ≤ 2 ^ 24 := by
    rw [hm]
    split
    · omega
    · split
      · omega
      · split <;> omega
  have hval : fsqrt (F32.fin x) = F32.ofGrid ((m : ℚ) * (2 : ℚ) ^ (h - 23)) := by
    have hx1 : ¬ x < 0 := by linarith
    simp only [fsqrt]
    rw [if_neg hx1, if_neg hx0]
    unfold sqrtRound
    simp only
    rw [he, ← ht, ← hs, ← hm]
  have hm1q : (8388608 : ℚ) ≤ (m : ℚ) := by exact_mod_cast hm1
  have hm2q : (m : ℚ) ≤ 16777216 := by exact_mod_cast hm2
  have hElo : (2 : ℚ) ^ (-23 : ℤ) ≤ (2 : ℚ) ^ (h - 23) :=
    zpow_le_zpow_right₀ (by norm_num) (by omega)
  have hEhi : (2 : ℚ) ^ (h - 23) ≤ (2 : ℚ) ^ (40 : ℤ) :=
    zpow_le_zpow_right₀ (by norm_num) (by omega)
  have e23 : (2 : ℚ) ^ (-23 : ℤ) = 1 / 8388608 := by norm_num
  have e40 : (2 : ℚ) ^ (40 : ℤ) = 1099511627776 := by norm_num
  rw [e23] at hElo
  rw [e40] at hEhi
  have hlo : 1 ≤ (m : ℚ) * (2 : ℚ) ^ (h - 23) := by nlinarith
  have hhi : (m : ℚ) * (2 : ℚ) ^ (h - 23) < (2 : ℚ) ^ (128 : ℕ) := by
    have : (m : ℚ) * (2 : ℚ) ^ (h - 23) ≤ 16777216 * 1099511627776 :=
      mul_le_mul hm2q hEhi hE.le (by norm_num)
    have : (16777216 * 1099511627776 : ℚ) < (2 : ℚ) ^ (128 : ℕ) := by norm_num
    linarith
  refine ⟨(m : ℚ) * (2 : ℚ) ^ (h - 23), ?_, hlo⟩
  rw [hval]
  unfold F32.ofGrid
  rw [if_neg (by linarith), if_neg (by linarith)]

/-! ## The Sellmeier index of refraction -/

theorem onGrid_zero : OnGrid 0 :=
  ⟨⟨0, 0, by norm_num, by norm_num, by norm_num⟩, by norm_num⟩

theorem onGrid_one : OnGrid 1 :=
  ⟨⟨1, 0, by norm_num, by norm_num, by norm_num⟩, by norm_num⟩

theorem onGrid_pow2 (k : ℕ) (hk : k < 128) : OnGrid ((2 : ℚ) ^ k) := by
  refine ⟨⟨1, k, by norm_num, by omega, by simp⟩, ?_⟩
  rw [abs_of_pos (pow_pos (by norm_num) _)]
  exact pow_lt_pow_right₀ (by norm_num) hk

theorem onGrid_three_eighths : OnGrid (3 / 8) := by
  refine ⟨⟨3, -3, by norm_num, by norm_num, by norm_num⟩, ?_⟩
  rw [abs_lt]
  constructor <;> norm_num

theorem onGrid_nine_64 : OnGrid (9 / 64) := by
  refine ⟨⟨9, -6, by norm_num, by norm_num, by norm_num⟩, ?_⟩
  rw [abs_lt]
  constructor <;> norm_num

theorem onGrid_sixteenth : OnGrid (1 / 16) := by
  refine ⟨⟨1, -4, by norm_num, by norm_num, by norm_num⟩, ?_⟩
  rw [abs_lt]
  constructor <;> norm_num

theorem fadd_fin (x y : ℚ) : fadd (F32.fin x) (F32.fin y) = F32.round (x + y) := rfl

theorem fsub_fin (x y : ℚ) : fsub (F32.fin x) (F32.fin y) = F32.round (x + -y) := rfl

theorem fmul_fin (x y : ℚ) : fmul (F32.fin x) (F32.fin y) = F32.round (x * y) := rfl

theorem fdiv_fin (x y : ℚ) (hy : y ≠ 0) :
    fdiv (F32.fin x) (F32.fin y) = F32.round (x / y) := by
  simp only [fdiv]
  rw [if_neg hy]

theorem sellmeier_constants :
    lit 1000.0 = F32.fin 1000 ∧ lit 1.0 = F32.fin 1 ∧
    lit 0.3306 = F32.fin (11093095 / 33554432) ∧
    fmul (lit 0.1750) (lit 0.1750) = F32.fin (16441671 / 536870912) ∧
    lit 4.3356 = F32.fin (2273103 / 524288) ∧
    fmul (lit 0.1060) (lit 0.1060) = F32.fin (12064563 / 1073741824) := by decide!

/-- Over the visible band the radicand `n2` of `getDiamondIOR_Sellmeier` is finite and lies
in `[1, 256]`. -/
theorem sellmeier_n2_range (w : ℚ) (h1 : 380 ≤ w) (h2 : w ≤ 780) :
    (fadd (fadd (F32.fin 1)
        (fdiv (fmul (F32.fin (11093095 / 33554432))
            (fmul (fdiv (F32.fin w) (F32.fin 1000)) (fdiv (F32.fin w) (F32.fin 1000))))
          (fsub (fmul (fdiv (F32.fin w) (F32.fin 1000)) (fdiv (F32.fin w) (F32.fin 1000)))
            (F32.fin (16441671 / 536870912)))))
      (fdiv (fmul (F32.fin (2273103 / 524288))
            (fmul (fdiv (F32.fin w) (F32.fin 1000)) (fdiv (F32.fin w) (F32.fin 1000))))
          (fsub (fmul (fdiv (F32.fin w) (F32.fin 1000)) (fdiv (F32.fin w) (F32.fin 1000)))
            (F32.fin (12064563 / 1073741824))))).InRange 1 256 := by
  have g8 : OnGrid (8 : ℚ) := by simpa using onGrid_pow2 3 (by norm_num)
  have g16 : OnGrid (16 : ℚ) := by simpa using onGrid_pow2 4 (by norm_num)
  have g32 : OnGrid (32 : ℚ) := by simpa using onGrid_pow2 5 (by norm_num)
  have g128 : OnGrid (128 : ℚ) := by simpa using onGrid_pow2 7 (by norm_num)
  have g256 : OnGrid (256 : ℚ) := by simpa using onGrid_pow2 8 (by norm_num)
  -- lambda_um
  obtain ⟨u, hu, hu1, hu2⟩ : (fdiv (F32.fin w) (F32.fin 1000)).InRange (3 / 8) 1 := by
    rw [fdiv_fin _ _ (by norm_num)]
    refine round_inRange _ _ _ onGrid_three_eighths onGrid_one ?_ ?_
    · rw [le_div_iff₀ (by norm_num)]; linarith
    · rw [div_le_iff₀ (by norm_num)]; linarith
  rw [hu]
  -- l2
  obtain ⟨l, hl, hl1, hl2⟩ : (fmul (F32.fin u) (F32.fin u)).InRange (9 / 64) 1 := by
    rw [fmul_fin]
    refine round_inRange _ _ _ onGrid_nine_64 onGrid_one ?_ ?_ <;> nlinarith
  rw [hl]
  -- the two denominators
  obtain ⟨d1, hd, hd1, hd2⟩ :
      (fsub (F32.fin l) (F32.fin (16441671 / 536870912))).InRange (1 / 16) 1 := by
    rw [fsub_fin]
    refine round_inRange _ _ _ onGrid_sixteenth onGrid_one ?_ ?_ <;> linarith
  obtain ⟨d2, hd', hd1', hd2'⟩ :
      (fsub (F32.fin l) (F32.fin (12064563 / 1073741824))).InRange (1 / 16) 1 := by
    rw [fsub_fin]
    refine round_inRange _ _ _ onGrid_sixteenth onGrid_one ?_ ?_ <;> linarith
  rw [hd, hd']
  -- the two numerators
  obtain ⟨p1, hp, hp1, hp2⟩ :
      (fmul (F32.fin (11093095 / 33554432)) (F32.fin l)).InRange 0 1 := by
    rw [fmul_fin]
    refine round_inRange _ _ _ onGrid_zero onGrid_one ?_ ?_ <;> nlinarith
  obtain ⟨p2, hp', hp1', hp2'⟩ :
      (fmul (F32.fin (2273103 / 524288)) (F32.fin l)).InRange 0 8 := by
    rw [fmul_fin]
    refine round_inRange _ _ _ onGrid_zero g8 ?_ ?_ <;> nlinarith
  rw [hp, hp']
  -- the two quotients
  obtain ⟨x1, hx, hx1, hx2⟩ : (fdiv (F32.fin p1) (F32.fin d1)).InRange 0 16 := by
    rw [fdiv_fin _ _ (by linarith)]
    refine round_inRange _ _ _ onGrid_zero g16 ?_ ?_
    · exact div_nonneg hp1 (by linarith)
    · rw [div_le_iff₀ (by linarith)]; nlinarith
  obtain ⟨x2, hx', hx1', hx2'⟩ : (fdiv (F32.fin p2) (F32.fin d2)).InRange 0 128 := by
    rw [fdiv_fin _ _ (by linarith)]
    refine round_inRange _ _ _ onGrid_zero g128 ?_ ?_
    · exact div_nonneg hp1' (by linarith)
    · rw [div_le_iff₀ (by linarith)]; nlinarith
  rw [hx, hx']
  -- the two sums
  obtain ⟨s1, hs, hs1, hs2⟩ : (fadd (F32.fin 1) (F32.fin x1)).InRange 1 32 := by
    rw [fadd_fin]
    refine round_inRange _ _ _ onGrid_one g32 ?_ ?_ <;> linarith
  rw [hs, fadd_fin]
  refine round_inRange _ _ _ onGrid_one g256 ?_ ?_ <;> linarith

/-- C8: for every wavelength in [380, 780] nm, `getDiamondIOR_Sellmeier` returns a finite
number that is at least 1. -/
theorem diamondIOR_ge_one (w : ℚ) (h1 : 380 ≤ w) (h2 : w ≤ 780) :
    ∃ n : ℚ, getDiamondIOR_Sellmeier (F32.fin w) = F32.fin n ∧ 1 ≤ n := by
  obtain ⟨c1, c2, c3, c4, c5, c6⟩ := sellmeier_constants
  obtain ⟨n2, hn, hn1, hn2⟩ := sellmeier_n2_range w h1 h2
  have hval : getDiamondIOR_Sellmeier (F32.fin w) = fsqrt (F32.fin n2) := by
    unfold getDiamondIOR_Sellmeier
    simp only
    rw [c1, c2, c3, c4, c5, c6, hn]
    have hnlt : ¬ n2 < 1 := by linarith
    simp only [fmax, flt, decide_eq_true_eq]
    rw [if_neg hnlt]
  rw [hval]
  exact fsqrt_ge_one n2 hn1 (lt_of_le_of_lt hn2 (by norm_num))

theorem diamondIOR_ge_one_witness :
    (380 : ℚ) ≤ 550 ∧ (550 : ℚ) ≤ 780 ∧
      ∃ n : ℚ, getDiamondIOR_Sellmeier (F32.fin 550) = F32.fin n ∧ 1 ≤ n :=
  ⟨by norm_num, by norm_num, diamondIOR_ge_one 550 (by norm_num) (by norm_num)⟩

/-! ## Scene normalization -/

theorem sentinel_value : lit 1e30 = F32.fin 1000000015047466219876688855040 := by decide!

theorem inSentinels_fin (x : F32) (h : inSentinels x = true) :
    ∃ q : ℚ, x = F32.fin q ∧ -1000000015047466219876688855040 < q ∧
      q < 1000000015047466219876688855040 := by
  unfold inSentinels at h
  rw [sentinel_value] at h
  cases x with
  | fin q =>
    simp only [fneg, flt, Bool.and_eq_true, decide_eq_true_eq] at h
    exact ⟨q, rfl, h.1, h.2⟩
  | pinf => simp [fneg, flt] at h
  | ninf => simp [fneg, flt] at h
  | nan => simp [fneg, flt] at h

theorem fmin_fin (a x : ℚ) : fmin (F32.fin a) (F32.fin x) = F32.fin (min a x) := by
  simp only [fmin, flt]
  by_cases h : x < a
  · rw [min_eq_right h.le]; simp [h]
  · rw [min_eq_left (not_lt.mp h)]; simp [h]

theorem fmax_fin (a x : ℚ) : fmax (F32.fin a) (F32.fin x) = F32.fin (max a x) := by
  simp only [fmax, flt]
  by_cases h : a < x
  · rw [max_eq_right h.le]; simp [h]
  · rw [max_eq_left (not_lt.mp h)]; simp [h]

theorem foldl_fmin (f : Vertex → F32) (vs : List Vertex) :
    ∀ m0 : ℚ, (∀ v ∈ vs, ∃ x : ℚ, f v = F32.fin x) →
    ∃ m : ℚ, vs.foldl (fun acc v => fmin acc (f v)) (F32.fin m0) = F32.fin m ∧ m ≤ m0 ∧
      (∀ v ∈ vs, ∀ x : ℚ, f v = F32.fin x → m ≤ x) ∧ (m = m0 ∨ ∃ v ∈ vs, f v = F32.fin m) := by
  induction vs with
  | nil =>
    intro m0 _
    exact ⟨m0, rfl, le_rfl, by simp, Or.inl rfl⟩
  | cons v rest ih =>
    intro m0 hf
    obtain ⟨x, hx⟩ := hf v (List.mem_cons_self _ _)
    obtain ⟨m, hm, hle, hall, hatt⟩ :=
      ih (min m0 x) (fun u hu => hf u (List.mem_cons_of_mem _ hu))
    refine ⟨m, ?_, le_trans hle (min_le_left _ _), ?_, ?_⟩
    · rw [List.foldl_cons, hx, fmin_fin]
      exact hm
    · intro u hu y hy
      rcases List.mem_cons.mp hu with rfl | hu
      · rw [hx] at hy
        cases hy
        exact le_trans hle (min_le_right _ _)
      · exact hall u hu y hy
    · rcases hatt with hatt | ⟨u, hu, hfu⟩
      · rcases min_choice m0 x with hc | hc
        · exact Or.inl (by rw [hatt, hc])
        · exact Or.inr ⟨v, List.mem_cons_self _ _, by rw [hx, hatt, hc]⟩
      · exact Or.inr ⟨u, List.mem_cons_of_mem _ hu, hfu⟩

theorem foldl_fmax (f : Vertex → F32) (vs : List Vertex) :
    ∀ m0 : ℚ, (∀ v ∈ vs, ∃ x : ℚ, f v = F32.fin x) →
    ∃ m : ℚ, vs.foldl (fun acc v => fmax acc (f v)) (F32.fin m0) = F32.fin m ∧ m0 ≤ m ∧
      (∀ v ∈ vs, ∀ x : ℚ, f v = F32.fin x → x ≤ m) ∧ (m = m0 ∨ ∃ v ∈ vs, f v = F32.fin m) := by
  induction vs with
  | nil =>
    intro m0 _
    exact ⟨m0, rfl, le_rfl, by simp, Or.inl rfl⟩
  | cons v rest ih =>
    intro m0 hf
    obtain ⟨x, hx⟩ := hf v (List.mem_cons_self _ _)
    obtain ⟨m, hm, hle, hall, hatt⟩ :=
      ih (max m0 x) (fun u hu => hf u (List.mem_cons_of_mem _ hu))
    refine ⟨m, ?_, le_trans (le_max_left _ _) hle, ?_, ?_⟩
    · rw [List.foldl_cons, hx, fmax_fin]
      exact hm
    · intro u hu y hy
      rcases List.mem_cons.mp hu with rfl | hu
      · rw [hx] at hy
        cases hy
        exact le_trans (le_max_right _ _) hle
      · exact hall u hu y hy
    · rcases hatt with hatt | ⟨u, hu, hfu⟩
      · rcases max_choice m0 x with hc | hc
        · exact Or.inl (by rw [hatt, hc])
        · exact Or.inr ⟨v, List.mem_cons_self _ _, by rw [hx, hatt, hc]⟩
      · exact Or.inr ⟨u, List.mem_cons_of_mem _ hu, hfu⟩

theorem foldl_boundsStep (vs : List Vertex) : ∀ b : Bounds,
    vs.foldl boundsStep b =
      { minX := vs.foldl (fun acc v => fmin acc v.px) b.minX,
        maxX := vs.foldl (fun acc v => fmax acc v.px) b.maxX,
        minZ := vs.foldl (fun acc v => fmin acc v.pz) b.minZ,
        maxZ := vs.foldl (fun acc v => fmax acc v.pz) b.maxZ } := by
  induction vs with
  | nil => intro b; rfl
  | cons v rest ih =>
    intro b
    rw [List.foldl_cons, ih]
    rfl

/-- The bounds loop over a non-empty list inside the sentinels yields the least and the
greatest X and Z coordinate of the list. -/
theorem xzBounds_spec (vs : List Vertex) (hne : vs ≠ [])
    (hin : ∀ v ∈ vs, inSentinels v.px = true ∧ inSentinels v.pz = true) :
    ∃ minX maxX minZ maxZ : ℚ,
      xzBounds vs = { minX := F32.fin minX, maxX := F32.fin maxX,
                      minZ := F32.fin minZ, maxZ := F32.fin maxZ } ∧
      ((∃ v ∈ vs, v.px = F32.fin minX) ∧ ∀ v ∈ vs, ∀ x : ℚ, v.px = F32.fin x → minX ≤ x) ∧
      ((∃ v ∈ vs, v.px = F32.fin maxX) ∧ ∀ v ∈ vs, ∀ x : ℚ, v.px = F32.fin x → x ≤ maxX) ∧
      ((∃ v ∈ vs, v.pz = F32.fin minZ) ∧ ∀ v ∈ vs, ∀ z : ℚ, v.pz = F32.fin z → minZ ≤ z) ∧
      ((∃ v ∈ vs, v.pz = F32.fin maxZ) ∧ ∀ v ∈ vs, ∀ z : ℚ, v.pz = F32.fin z → z ≤ maxZ) := by
  obtain ⟨v0, hv0⟩ := List.exists_mem_of_ne_nil vs hne
  obtain ⟨x0, hx0, hx0l, hx0u⟩ := inSentinels_fin _ (hin v0 hv0).1
  obtain ⟨z0, hz0, hz0l, hz0u⟩ := inSentinels_fin _ (hin v0 hv0).2
  have hfx : ∀ v ∈ vs, ∃ x : ℚ, v.px = F32.fin x := fun v hv =>
    let ⟨q, hq, _⟩ := inSentinels_fin _ (hin v hv).1
    ⟨q, hq⟩
  have hfz : ∀ v ∈ vs, ∃ z : ℚ, v.pz = F32.fin z := fun v hv =>
    let ⟨q, hq, _⟩ := inSentinels_fin _ (hin v hv).2
    ⟨q, hq⟩
  obtain ⟨a, ha, _, ha2, ha3⟩ := foldl_fmin (fun v => v.px) vs 1000000015047466219876688855040 hfx
  obtain ⟨b, hb, _, hb2, hb3⟩ :=
    foldl_fmax (fun v => v.px) vs (-1000000015047466219876688855040) hfx
  obtain ⟨c, hc, _, hc2, hc3⟩ := foldl_fmin (fun v => v.pz) vs 1000000015047466219876688855040 hfz
  obtain ⟨d, hd, _, hd2, hd3⟩ :=
    foldl_fmax (fun v => v.pz) vs (-1000000015047466219876688855040) hfz
  refine ⟨a, b, c, d, ?_, ⟨?_, ha2⟩, ⟨?_, hb2⟩, ⟨?_, hc2⟩, ⟨?_, hd2⟩⟩
  · unfold xzBounds
    rw [foldl_boundsStep]
    simp only [initBounds, sentinel_value, fneg]
    rw [ha, hb, hc, hd]
  · rcases ha3 with h | h
    · have := ha2 v0 hv0 x0 hx0
      rw [h] at this
      linarith
    · exact h
  · rcases hb3 with h | h
    · have := hb2 v0 hv0 x0 hx0
      rw [h] at this
      linarith
    · exact h
  · rcases hc3 with h | h
    · have := hc2 v0 hv0 z0 hz0
      rw [h] at this
      linarith
    · exact h
  · rcases hd3 with h | h
    · have := hd2 v0 hv0 z0 hz0
      rw [h] at this
      linarith
    · exact h

theorem half_constants : lit 0.5 = F32.fin (1 / 2) ∧ lit 2.0 = F32.fin 2 ∧
    lit 1.05 = F32.fin (4404019 / 4194304) := by decide!

theorem fmul_half_eq_fdiv_two (y : F32) : fmul (lit 0.5) y = fdiv y (lit 2.0) := by
  rw [half_constants.1, half_constants.2.1]
  cases y with
  | fin q =>
    rw [fmul_fin, fdiv_fin _ _ (by norm_num)]
    congr 1
    ring
  | pinf => decide!
  | ninf => decide!
  | nan => rfl

theorem fmul_comm_fin (x : ℚ) (y : F32) : fmul y (F32.fin x) = fmul (F32.fin x) y := by
  cases y with
  | fin q => rw [fmul_fin, fmul_fin, mul_comm]
  | pinf => simp only [fmul, fsign, mul_comm]
  | ninf => simp only [fmul, fsign, mul_comm]
  | nan => rfl

theorem normalizeXZ_eq_spec (vs : List Vertex) :
    normalizeXZ vs = normalizeSpec (xzBounds vs).minX (xzBounds vs).maxX
      (xzBounds vs).minZ (xzBounds vs).maxZ := by
  unfold normalizeXZ normalizeSpec
  simp only [fmul_half_eq_fdiv_two]
  rw [half_constants.2.2, fmul_comm_fin]

theorem onGrid_zpow2 (k : ℤ) (h1 : -149 ≤ k) (h2 : k < 128) : OnGrid ((2 : ℚ) ^ k) := by
  refine ⟨⟨1, k, by norm_num, h1, by simp⟩, ?_⟩
  rw [abs_of_pos (zpow_pos (by norm_num) _)]
  have : (2 : ℚ) ^ k < (2 : ℚ) ^ (128 : ℤ) := zpow_lt_zpow_right₀ (by norm_num) h2
  have e : (2 : ℚ) ^ (128 : ℤ) = (2 : ℚ) ^ (128 : ℕ) := by norm_cast
  rw [e] at this
  exact this

theorem round_zero : F32.round 0 = F32.fin 0 := by
  unfold F32.round F32.ofGrid
  rw [roundGrid_zero, if_neg (by norm_num), if_neg (by norm_num)]

/-- Half of the extent `b - a`, as `0.5f * (b - a)`, stays between half of any two grid
points that enclose the extent. -/
theorem half_extent_range (a b lo hi : ℚ) (hlo : OnGrid lo) (hlo2 : OnGrid (lo / 2))
    (hhi : OnGrid hi) (hhi2 : OnGrid (hi / 2)) (h1 : lo ≤ b - a) (h2 : b - a ≤ hi) :
    (fmul (lit 0.5) (fsub (F32.fin b) (F32.fin a))).InRange (lo / 2) (hi / 2) := by
  obtain ⟨d, hd, hd1, hd2⟩ : (fsub (F32.fin b) (F32.fin a)).InRange lo hi := by
    rw [fsub_fin]
    exact round_inRange _ _ _ hlo hhi (by linarith) (by linarith)
  rw [hd, half_constants.1, fmul_fin]
  exact round_inRange _ _ _ hlo2 hhi2 (by linarith) (by linarith)

/-- The radius computed from the four bounds, `std::max(rX, rZ) * 1.05f`, between grid
points: the product with `1.05f` keeps a lower bound and at most doubles an upper bound. -/
theorem radius_range (a b c d lo hi : ℚ) (hlo : OnGrid lo) (hlo2 : OnGrid (lo / 2))
    (hhi : OnGrid hi) (hhi2 : OnGrid (hi / 2)) (h0 : 0 ≤ lo)
    (hX : 0 ≤ b - a) (hZ : 0 ≤ d - c) (hXh : b - a ≤ hi) (hZh : d - c ≤ hi)
    (hl : lo ≤ b - a ∨ lo ≤ d - c) :
    (fmul (fmax (fmul (lit 0.5) (fsub (F32.fin b) (F32.fin a)))
        (fmul (lit 0.5) (fsub (F32.fin d) (F32.fin c)))) (lit 1.05)).InRange (lo / 2) hi := by
  have g0 := onGrid_zero
  have g02 : OnGrid ((0 : ℚ) / 2) := by rw [zero_div]; exact onGrid_zero
  obtain ⟨rX, hrX, hrX1, hrX2⟩ := half_extent_range a b 0 hi g0 g02 hhi hhi2 hX hXh
  obtain ⟨rZ, hrZ, hrZ1, hrZ2⟩ := half_extent_range c d 0 hi g0 g02 hhi hhi2 hZ hZh
  rw [zero_div] at hrX1 hrZ1
  have hmaxlo : lo / 2 ≤ max rX rZ := by
    rcases hl with h | h
    · obtain ⟨r, hr, hr1, _⟩ := half_extent_range a b lo hi hlo hlo2 hhi hhi2 h hXh
      rw [hrX] at hr
      cases hr
      exact le_trans hr1 (le_max_left _ _)
    · obtain ⟨r, hr, hr1, _⟩ := half_extent_range c d lo hi hlo hlo2 hhi hhi2 h hZh
      rw [hrZ] at hr
      cases hr
      exact le_trans hr1 (le_max_right _ _)
  have hmax0 : 0 ≤ max rX rZ := le_trans hrX1 (le_max_left _ _)
  have hmaxhi : max rX rZ ≤ hi / 2 := max_le hrX2 hrZ2
  rw [hrX, hrZ, fmax_fin, half_constants.2.2, fmul_fin]
  refine round_inRange _ _ _ hlo2 hhi ?_ ?_
  · nlinarith
  · nlinarith

/-- C4: for every non-empty vertex list whose X and Z coordinates lie strictly between the
sentinels, the normalization pass yields `center = ((minX+maxX)/2, (minZ+maxZ)/2)` and
`radius = 1.05 * max((maxX-minX)/2, (maxZ-minZ)/2)` in binary32 arithmetic, where the four
bounds are the least and greatest X and Z over all vertices (Y is not read); the loader
stores exactly this triple; for `(-1,0,-2), (1,0,-2), (0,0,2)` the center is `(0, 0)` and
the radius is `1.05f * 2 = 2.1f`, the binary32 number `4404019 / 2^21` nearest to 2.1. -/
theorem normalization_spec :
    (∀ vs : List Vertex, vs ≠ [] →
      (∀ v ∈ vs, inSentinels v.px = true ∧ inSentinels v.pz = true) →
      ∃ minX maxX minZ maxZ : ℚ,
        ((∃ v ∈ vs, v.px = F32.fin minX) ∧ ∀ v ∈ vs, ∀ x : ℚ, v.px = F32.fin x → minX ≤ x) ∧
        ((∃ v ∈ vs, v.px = F32.fin maxX) ∧ ∀ v ∈ vs, ∀ x : ℚ, v.px = F32.fin x → x ≤ maxX) ∧
        ((∃ v ∈ vs, v.pz = F32.fin minZ) ∧ ∀ v ∈ vs, ∀ z : ℚ, v.pz = F32.fin z → minZ ≤ z) ∧
        ((∃ v ∈ vs, v.pz = F32.fin maxZ) ∧ ∀ v ∈ vs, ∀ z : ℚ, v.pz = F32.fin z → z ≤ maxZ) ∧
        normalizeXZ vs =
          normalizeSpec (F32.fin minX) (F32.fin maxX) (F32.fin minZ) (F32.fin maxZ)) ∧
    (∀ (sc : AiScene) (mesh : AiMesh) (rest : List AiMesh) (g : Globals),
      sc.hasRootNode = true → sc.incomplete = false → sc.mMeshes = mesh :: rest →
      (loadOBJ_Assimp (some sc) g).1 = true ∧
      ((loadOBJ_Assimp (some sc) g).2.gCenterX, (loadOBJ_Assimp (some sc) g).2.gCenterZ,
        (loadOBJ_Assimp (some sc) g).2.gRadiusXZ)
        = normalizeXZ (loadOBJ_Assimp (some sc) g).2.gVertices) ∧
    normalizeXZ triangleVertices = (F32.fin 0, F32.fin 0, lit 2.1) ∧
    ((loadOBJ_Assimp (some (sceneOf trianglePositions)) initGlobals).2.gCenterX = F32.fin 0 ∧
      (loadOBJ_Assimp (some (sceneOf trianglePositions)) initGlobals).2.gCenterZ = F32.fin 0 ∧
      (loadOBJ_Assimp (some (sceneOf trianglePositions)) initGlobals).2.gRadiusXZ = lit 2.1) ∧
    (fmul (lit 1.05) (lit 2.0) = lit 2.1 ∧ lit 2.1 = F32.fin (4404019 / 2097152)) := by
  refine ⟨?_, ?_, by decide!, by decide!, by decide!⟩
  · intro vs hne hin
    obtain ⟨a, b, c, d, hb, h1, h2, h3, h4⟩ := xzBounds_spec vs hne hin
    refine ⟨a, b, c, d, h1, h2, h3, h4, ?_⟩
    rw [normalizeXZ_eq_spec, hb]
  · intro sc mesh rest g h1 h2 h3
    simp only [loadOBJ_Assimp, h1, h2, h3, Bool.not_true, Bool.or_self, Bool.false_eq_true,
      if_false, and_self]

theorem normalization_spec_witness :
    triangleVertices ≠ [] ∧
    (∀ v ∈ triangleVertices, inSentinels v.px = true ∧ inSentinels v.pz = true) ∧
    ∃ minX maxX minZ maxZ : ℚ,
      ((∃ v ∈ triangleVertices, v.px = F32.fin minX) ∧
        ∀ v ∈ triangleVertices, ∀ x : ℚ, v.px = F32.fin x → minX ≤ x) ∧
      ((∃ v ∈ triangleVertices, v.px = F32.fin maxX) ∧
        ∀ v ∈ triangleVertices, ∀ x : ℚ, v.px = F32.fin x → x ≤ maxX) ∧
      ((∃ v ∈ triangleVertices, v.pz = F32.fin minZ) ∧
        ∀ v ∈ triangleVertices, ∀ z : ℚ, v.pz = F32.fin z → minZ ≤ z) ∧
      ((∃ v ∈ triangleVertices, v.pz = F32.fin maxZ) ∧
        ∀ v ∈ triangleVertices, ∀ z : ℚ, v.pz = F32.fin z → z ≤ maxZ) ∧
      normalizeXZ triangleVertices =
        normalizeSpec (F32.fin minX) (F32.fin maxX) (F32.fin minZ) (F32.fin maxZ) :=
  ⟨List.cons_ne_nil _ _, by decide!,
    normalization_spec.1 triangleVertices (List.cons_ne_nil _ _) (by decide!)⟩

/-- C5: a scene whose first mesh has zero vertices is loaded without an error:
`loadOBJ_Assimp` returns `true`, leaves `gVertices` empty, and stores center `(0, 0)` and
the radius `-1049999978020907667913361588224` (about `-1.05e30`) derived from the
sentinels. -/
theorem load_empty_mesh_succeeds :
    (loadOBJ_Assimp (some (sceneOf [])) initGlobals).1 = true ∧
    (loadOBJ_Assimp (some (sceneOf [])) initGlobals).2.gVertices.length = 0 ∧
    (loadOBJ_Assimp (some (sceneOf [])) initGlobals).2.gCenterX = F32.fin 0 ∧
    (loadOBJ_Assimp (some (sceneOf [])) initGlobals).2.gCenterZ = F32.fin 0 ∧
    (loadOBJ_Assimp (some (sceneOf [])) initGlobals).2.gRadiusXZ
      = F32.fin (-1049999978020907667913361588224) ∧
    normalizeXZ [] = (F32.fin 0, F32.fin 0, F32.fin (-1049999978020907667913361588224)) := by
  decide!

/-- C6 (as stated, refuted): for the non-empty list of the two vertices `(5,1,7)` and
`(5,2,7)` the computed radius is exactly 0, not a positive epsilon. -/
theorem degenerate_radius_zero :
    degenerateVertices ≠ [] ∧
    (∀ v ∈ degenerateVertices, inSentinels v.px = true ∧ inSentinels v.pz = true) ∧
    (normalizeXZ degenerateVertices).2.2 = F32.fin 0 ∧
    flt (F32.fin 0) (normalizeXZ degenerateVertices).2.2 = false :=
  ⟨List.cons_ne_nil _ _, by decide!, by decide!, by decide!⟩

/-- C6 (amended): for every non-empty vertex list inside the sentinels the computed radius
is a finite number that is at least 0; it is exactly 0 when all vertices share one X/Z
point, and it is positive as soon as two vertices differ by at least `2^-148` in X or
in Z. -/
theorem radius_nonneg (vs : List Vertex) (hne : vs ≠ [])
    (hin : ∀ v ∈ vs, inSentinels v.px = true ∧ inSentinels v.pz = true) :
    ∃ r : ℚ, (normalizeXZ vs).2.2 = F32.fin r ∧ 0 ≤ r ∧
      ((∀ u ∈ vs, ∀ v ∈ vs, u.px = v.px ∧ u.pz = v.pz) → r = 0) ∧
      ((∃ u ∈ vs, ∃ v ∈ vs, ∃ p q : ℚ,
          ((u.px = F32.fin p ∧ v.px = F32.fin q) ∨ (u.pz = F32.fin p ∧ v.pz = F32.fin q)) ∧
          (2 : ℚ) ^ (-148 : ℤ) ≤ q - p) → 0 < r) := by
  obtain ⟨a, b, c, d, hb, ⟨⟨ua, hua, hpa⟩, hamin⟩, ⟨⟨ub, hub, hpb⟩, hbmax⟩,
    ⟨⟨uc, huc, hpc⟩, hcmin⟩, ⟨⟨ud, hud, hpd⟩, hdmax⟩⟩ := xzBounds_spec vs hne hin
  have hval : (normalizeXZ vs).2.2 =
      fmul (fmax (fmul (lit 0.5) (fsub (F32.fin b) (F32.fin a)))
        (fmul (lit 0.5) (fsub (F32.fin d) (F32.fin c)))) (lit 1.05) := by
    unfold normalizeXZ
    simp only
    rw [hb]
  -- the extents are nonnegative and below `2^101`
  have hab : a ≤ b := hbmax ua hua a hpa
  have hcd : c ≤ d := hdmax uc huc c hpc
  obtain ⟨a', ha', hal, _⟩ := inSentinels_fin _ (hin ua hua).1
  obtain ⟨b', hb', _, hbu⟩ := inSentinels_fin _ (hin ub hub).1
  obtain ⟨c', hc', hcl, _⟩ := inSentinels_fin _ (hin uc huc).2
  obtain ⟨d', hd', _, hdu⟩ := inSentinels_fin _ (hin ud hud).2
  rw [hpa] at ha'
  rw [hpb] at hb'
  rw [hpc] at hc'
  rw [hpd] at hd'
  cases ha'
  cases hb'
  cases hc'
  cases hd'
  have g0 := onGrid_zero
  have g02 : OnGrid ((0 : ℚ) / 2) := by rw [zero_div]; exact onGrid_zero
  have ghi : OnGrid ((2 : ℚ) ^ 101) := onGrid_pow2 101 (by norm_num)
  have ghi2 : OnGrid ((2 : ℚ) ^ 101 / 2) := by
    have : (2 : ℚ) ^ 101 / 2 = (2 : ℚ) ^ 100 := by norm_num
    rw [this]
    exact onGrid_pow2 100 (by norm_num)
  have hXh : b - a ≤ (2 : ℚ) ^ 101 := by
    have : (2 * 1000000015047466219876688855040 : ℚ) ≤ (2 : ℚ) ^ 101 := by norm_num
    linarith
  have hZh : d - c ≤ (2 : ℚ) ^ 101 := by
    have : (2 * 1000000015047466219876688855040 : ℚ) ≤ (2 : ℚ) ^ 101 := by norm_num
    linarith
  obtain ⟨r, hr, hr1, _⟩ := radius_range a b c d 0 ((2 : ℚ) ^ 101) g0 g02 ghi ghi2 le_rfl
    (by linarith) (by linarith) hXh hZh (Or.inl (by linarith))
  rw [zero_div] at hr1
  refine ⟨r, by rw [hval, hr], hr1, ?_, ?_⟩
  · intro hall
    have e1 : a = b := by
      have := (hall ua hua ub hub).1
      rw [hpa, hpb] at this
      cases this
      rfl
    have e2 : c = d := by
      have := (hall uc huc ud hud).2
      rw [hpc, hpd] at this
      cases this
      rfl
    obtain ⟨r', hr', _, hr2'⟩ := radius_range a b c d 0 0 g0 g02 g0 g02 le_rfl
      (by linarith) (by linarith) (by linarith) (by linarith) (Or.inl (by linarith))
    rw [hr] at hr'
    cases hr'
    linarith
  · rintro ⟨u, hu, v, hv, p, q, hpq, hdiff⟩
    have glo : OnGrid ((2 : ℚ) ^ (-148 : ℤ)) := onGrid_zpow2 _ (by norm_num) (by norm_num)
    have e : (2 : ℚ) ^ (-148 : ℤ) / 2 = (2 : ℚ) ^ (-149 : ℤ) := by
      rw [show (-149 : ℤ) = -148 - 1 by norm_num, zpow_sub_one₀ (by norm_num : (2 : ℚ) ≠ 0)]
      ring
    have glo2 : OnGrid ((2 : ℚ) ^ (-148 : ℤ) / 2) := by
      rw [e]
      exact onGrid_zpow2 _ (by norm_num) (by norm_num)
    have hpos : (0 : ℚ) < (2 : ℚ) ^ (-148 : ℤ) := zpow_pos (by norm_num) _
    have hl : (2 : ℚ) ^ (-148 : ℤ) ≤ b - a ∨ (2 : ℚ) ^ (-148 : ℤ) ≤ d - c := by
      rcases hpq with ⟨h1, h2⟩ | ⟨h1, h2⟩
      · left
        have := hamin u hu p h1
        have := hbmax v hv q h2
        linarith
      · right
        have := hcmin u hu p h1
        have := hdmax v hv q h2
        linarith
    obtain ⟨r', hr', hr1', _⟩ := radius_range a b c d ((2 : ℚ) ^ (-148 : ℤ)) ((2 : ℚ) ^ 101)
      glo glo2 ghi ghi2 hpos.le (by linarith) (by linarith) hXh hZh hl
    rw [hr] at hr'
    cases hr'
    linarith

theorem radius_nonneg_witness :
    triangleVertices ≠ [] ∧
    (∀ v ∈ triangleVertices, inSentinels v.px = true ∧ inSentinels v.pz = true) ∧
    ∃ r : ℚ, (normalizeXZ triangleVertices).2.2 = F32.fin r ∧ 0 ≤ r :=
  ⟨List.cons_ne_nil _ _, by decide!,
    let ⟨r, h1, h2, _⟩ := radius_nonneg triangleVertices (List.cons_ne_nil _ _) (by decide!)
    ⟨r, h1, h2⟩⟩

/-! ## Dispersion -/

/-- C9: `getDiamondDispersion()` evaluates `getDiamondIOR(486.1f) - getDiamondIOR(656.3f)`
to `107553 / 2^22`, about 0.02564; it does not lie within 0.001 of 0.044. -/
theorem diamondDispersion_value :
    getDiamondIOR (lit 656.3) = F32.fin (5053933 / 2097152) ∧
    getDiamondIOR (lit 486.1) = F32.fin (10215419 / 4194304) ∧
    ∃ d : ℚ, getDiamondDispersion = F32.fin d ∧ d = 107553 / 4194304 ∧
      0.0256 < d ∧ d < 0.0257 ∧ ¬ (0.043 ≤ d ∧ d ≤ 0.045) := by
  refine ⟨by decide!, by decide!, 107553 / 4194304, by decide!, rfl, ?_, ?_, ?_⟩ <;> norm_num

/-! ## Edge taper of `wavelengthToRGB` -/

/-- C10 (as stated, refuted): at 780 nm the intensity multiplier of `wavelengthToRGB`
is not 0.3. -/
theorem intensity_780_ne_floor : intensity (lit 780.0) ≠ lit 0.3 := by decide!

/-- C10 (amended): the intensity multiplier is exactly `0.3f` at 380 nm and at 720 nm, the
two wavelengths 170 nm away from 550 nm; at 780 nm it is `444103 / 2^23`, about 0.0529. -/
theorem intensity_edge_values :
    intensity (lit 380.0) = lit 0.3 ∧ intensity (lit 720.0) = lit 0.3 ∧
    intensity (lit 780.0) = F32.fin (444103 / 8388608) := by decide!

/-! ## Channel values of `wavelengthToRGB` -/

/-- C11: in the segment below 420 nm the red channel returned by `wavelengthToRGB` is
negative at 400 nm and at 419 nm (about -0.019 and -0.176), while green and blue stay in
`[0, 1]`; at 380 nm, 550 nm and 780 nm all three channels lie in `[0, 1]`. -/
theorem wavelengthToRGB_red_negative :
    wavelengthToRGB (lit 419.0)
      = (F32.fin (-11822905 / 67108864), F32.fin 0, F32.fin (7727389 / 16777216)) ∧
    wavelengthToRGB (lit 400.0)
      = (F32.fin (-10263705 / 536870912), F32.fin 0, F32.fin (3207409 / 8388608)) ∧
    flt (wavelengthToRGB (lit 419.0)).1 (lit 0.0) = true ∧
    flt (wavelengthToRGB (lit 400.0)).1 (lit 0.0) = true ∧
    wavelengthToRGB (lit 380.0)
      = (F32.fin (3019899 / 33554432), F32.fin 0, F32.fin (5033165 / 16777216)) ∧
    wavelengthToRGB (lit 550.0) = (F32.fin 0, F32.fin 1, F32.fin (4934475 / 16777216)) ∧
    wavelengthToRGB (lit 780.0) = (F32.fin (444103 / 8388608), F32.fin 0, F32.fin 0) := by
  decide!

end DiamondRayTracer
